import Mathlib

/-!
# advanced-vector: `RawMemory<T>`, `Vector<T>` (vector.h) and `Optional<T>` (optional.h)

A shallow embedding of `src/advanced-vector/vector.h` and `src/advanced-vector/optional.h`.

Memory model.  A block of raw memory obtained from `RawMemory<T>::Allocate(n)` is a list of
`n` slots.  A slot is `none` while it is uninitialised storage and `some x` while it holds a
live object of value `x`.  A pointer `T*` into a block is the index of a slot of that block,
so a function of the source that takes a pointer takes the block and an index here.

Every operation returns an `Option`: `none` stands for a violated precondition of the
source (a failed `assert`, an access outside the block, the use of an object that is not
live, the destruction of an object that is not live).  `operator new` never fails.  `size_t`
has 64 bits.  A count that the caller supplies (`Vector(n)`, `Reserve(n)`, `Resize(n)`) is
allocated with the byte size `n * sizeof(T)` computed in `size_t`, so the block is too short
when that product wraps around.  A count that the vector derives from the size of a block
that exists (`size_ * 2`, `other.size_`) cannot wrap around: that block has `size_ * sizeof(T)`
addressable bytes.

The first part follows the members of `Vector<T>` for constructors and assignments of `T`
that do not throw.  The part on throwing copy constructors follows `SafeOp`, `Reserve`,
`PushBack`, `EmplaceBack` and `Emplace` once more with the exceptions and their handlers; the
two agree while nothing throws.  The last part of the definitions is `Optional<T>`.
-/

namespace AdvancedVector

/-- What the container needs to know about the element type `T`: the two type traits consulted
by `SafeOp`, the value produced by value-initialisation `T()`, the value an object is left
with after it has been moved from (the identity for trivially copyable types), and
`sizeof(T)`, which is at least 1. -/
structure ElemType (T : Type) where
  is_nothrow_move_constructible : Bool
  is_copy_constructible : Bool
  value_init : T
  moved_from : T → T
  sizeof_T : Nat
  sizeof_pos : 0 < sizeof_T

/-- A block of slots: `none` is uninitialised storage, `some x` a live object. -/
abbrev Block (T : Type) := List (Option T)

section Memory

variable {T : Type}

/-- The live object held in slot `i` of the block, `none` when the slot is outside the block
or holds no live object. -/
def load (b : Block T) (i : Nat) : Option T :=
  (b[i]?).join

/-- Placement new `new (b + i) T(x)`: constructs an object of value `x` in slot `i`. -/
def construct_at (b : Block T) (i : Nat) (x : T) : Option (Block T) :=
  if i < b.length then some (b.set i (some x)) else none

/-- Destructor call `std::destroy_at(b + i)` / `b[i].~T()`: the object must be live. -/
def destroy_at (b : Block T) (i : Nat) : Option (Block T) :=
  match load b i with
  | some _ => some (b.set i none)
  | none => none

/-- Copy assignment `b[i] = x` to the live object in slot `i`. -/
def assign_at (b : Block T) (i : Nat) (x : T) : Option (Block T) :=
  match load b i with
  | some _ => some (b.set i (some x))
  | none => none

/-- Move assignment `b[dst] = std::move(b[src])` between two live objects of one block. -/
def move_assign (E : ElemType T) (b : Block T) (src dst : Nat) : Option (Block T) :=
  match load b src, load b dst with
  | some x, some _ => some ((b.set dst (some x)).set src (some (E.moved_from x)))
  | _, _ => none

/-- Move construction `new (b + dst) T(std::move(b[src]))` inside one block. -/
def move_construct (E : ElemType T) (b : Block T) (src dst : Nat) : Option (Block T) :=
  match load b src with
  | some x =>
    if dst < b.length then some ((b.set dst (some x)).set src (some (E.moved_from x))) else none
  | none => none

/-- The loop of `std::destroy_n(b + first, n)`. -/
def destroy_n (b : Block T) (first : Nat) : Nat → Option (Block T)
  | 0 => some b
  | n + 1 =>
    match destroy_at b first with
    | some b1 => destroy_n b1 (first + 1) n
    | none => none

/-- The loop of `std::uninitialized_value_construct_n(b + first, n)`. -/
def uninitialized_value_construct_n (E : ElemType T) (b : Block T) (first : Nat) :
    Nat → Option (Block T)
  | 0 => some b
  | n + 1 =>
    match construct_at b first E.value_init with
    | some b1 => uninitialized_value_construct_n E b1 (first + 1) n
    | none => none

/-- The loop of `std::uninitialized_copy_n(src + first, n, dst + d_first)`; the source block is
only read. -/
def uninitialized_copy_n (src : Block T) (first : Nat) (dst : Block T) (d_first : Nat) :
    Nat → Option (Block T)
  | 0 => some dst
  | n + 1 =>
    match load src first with
    | some x =>
      match construct_at dst d_first x with
      | some d1 => uninitialized_copy_n src (first + 1) d1 (d_first + 1) n
      | none => none
    | none => none

/-- The loop of `std::uninitialized_move_n(src + first, n, dst + d_first)`; returns the source
block (its objects moved from) and the destination block. -/
def uninitialized_move_n (E : ElemType T) (src : Block T) (first : Nat) (dst : Block T)
    (d_first : Nat) : Nat → Option (Block T × Block T)
  | 0 => some (src, dst)
  | n + 1 =>
    match load src first with
    | some x =>
      match construct_at dst d_first x with
      | some d1 =>
        uninitialized_move_n E (src.set first (some (E.moved_from x))) (first + 1) d1
          (d_first + 1) n
      | none => none
    | none => none

/-- The loop of `std::copy_n(src + first, n, dst + d_first)`: copy assignment to live objects;
the source block is only read. -/
def copy_n (src : Block T) (first : Nat) (dst : Block T) (d_first : Nat) :
    Nat → Option (Block T)
  | 0 => some dst
  | n + 1 =>
    match load src first with
    | some x =>
      match assign_at dst d_first x with
      | some d1 => copy_n src (first + 1) d1 (d_first + 1) n
      | none => none
    | none => none

/-- The loop of `std::move(b + first, b + last, b + d_first)` after `n` elements remain:
`*d_first++ = std::move(*first++)`. -/
def move_loop (E : ElemType T) (b : Block T) (first d_first : Nat) : Nat → Option (Block T)
  | 0 => some b
  | n + 1 =>
    match move_assign E b first d_first with
    | some b1 => move_loop E b1 (first + 1) (d_first + 1) n
    | none => none

/-- Range move `std::move(b + first, b + last, b + d_first)` inside one block. -/
def std_move (E : ElemType T) (b : Block T) (first last d_first : Nat) : Option (Block T) :=
  if first ≤ last then move_loop E b first d_first (last - first) else none

/-- The loop of `std::move_backward` after `n` elements remain:
`*(--d_last) = std::move(*(--last))`. -/
def move_backward_loop (E : ElemType T) (b : Block T) (last d_last : Nat) :
    Nat → Option (Block T)
  | 0 => some b
  | n + 1 =>
    if 0 < last ∧ 0 < d_last then
      match move_assign E b (last - 1) (d_last - 1) with
      | some b1 => move_backward_loop E b1 (last - 1) (d_last - 1) n
      | none => none
    else none

/-- Range move `std::move_backward(b + first, b + last, b + d_last)` inside one block. -/
def move_backward (E : ElemType T) (b : Block T) (first last d_last : Nat) :
    Option (Block T) :=
  if first ≤ last then move_backward_loop E b last d_last (last - first) else none

end Memory

/-! ## `RawMemory<T>` -/

/-- The class `RawMemory<T>`: the owned block `buffer_` (the empty block is `nullptr`) and the
number of slots `capacity_`. -/
structure RawMemory (T : Type) where
  buffer_ : Block T := []
  capacity_ : Nat := 0
deriving DecidableEq

namespace RawMemory

variable {T : Type}

/-- The static `Allocate(n)` for a count derived from the size of a block that exists, whose
byte size does not wrap around: raw memory for `n` elements, `nullptr` for `n = 0`. -/
def Allocate (n : Nat) : Block T :=
  if n ≠ 0 then List.replicate n none else []

/-- The constructor `RawMemory(size_t capacity)` for a count derived from the size of a block
that exists. -/
def ofCapacity (capacity : Nat) : RawMemory T :=
  { buffer_ := Allocate capacity, capacity_ := capacity }

/-- The static `Allocate(n)` for a count supplied by the caller:
`operator new(n * sizeof(T))` with the product computed in `size_t`.  The block has room for
`(n * sizeof(T) mod 2^64) / sizeof(T)` elements; it is `nullptr` for `n = 0`. -/
def Allocate_size_t (sizeof_T n : Nat) : Block T :=
  if n ≠ 0 then List.replicate (n * sizeof_T % 2 ^ 64 / sizeof_T) none else []

/-- The constructor `RawMemory(size_t capacity)` for a count supplied by the caller:
`capacity_` is the count asked for, whatever the block has room for. -/
def ofCapacity_size_t (sizeof_T capacity : Nat) : RawMemory T :=
  { buffer_ := Allocate_size_t sizeof_T capacity, capacity_ := capacity }

/-- The private `Init(RawMemory&& other)`: releases the own block, takes over the block and
capacity of `other` and leaves `other` with `nullptr` and capacity 0.  Returns the object and
`other`. -/
def Init (_self other : RawMemory T) : RawMemory T × RawMemory T :=
  ({ buffer_ := other.buffer_, capacity_ := other.capacity_ }, { buffer_ := [], capacity_ := 0 })

/-- The member `Swap(RawMemory& other)`; returns the object and `other`. -/
def Swap (self other : RawMemory T) : RawMemory T × RawMemory T :=
  ({ buffer_ := other.buffer_, capacity_ := other.capacity_ },
   { buffer_ := self.buffer_, capacity_ := self.capacity_ })

/-- The member `Capacity()`. -/
def Capacity (self : RawMemory T) : Nat :=
  self.capacity_

/-- The block of `self` replaced by `b` after the elements in it were worked on. -/
def withBuffer (self : RawMemory T) (b : Block T) : RawMemory T :=
  { buffer_ := b, capacity_ := self.capacity_ }

end RawMemory

/-! ## `Vector<T>` -/

/-- The class `Vector<T>`: the storage `data_` and the number of live elements `size_`, with
the default member initialisers used by `Vector() = default`. -/
structure Vector (T : Type) where
  data_ : RawMemory T := {}
  size_ : Nat := 0
deriving DecidableEq

namespace Vector

variable {T : Type}

/-- The member `Size()`. -/
def Size (v : Vector T) : Nat :=
  v.size_

/-- The member `Capacity()`. -/
def Capacity (v : Vector T) : Nat :=
  v.data_.Capacity

/-- The iterator `begin()` / `cbegin()`: the address of slot 0. -/
def cbegin (_v : Vector T) : Nat :=
  0

/-- The iterator `end()` / `cend()`: `data_ + size_`. -/
def cend (v : Vector T) : Nat :=
  0 + v.size_

/-- The private `SafeOp(from, size, to)`: relocates `size` objects from slot `from_` of the
block `src` to slot `to_` of the block `dst`, by move when `T` is nothrow move constructible or
not copy constructible and by copy otherwise, then destroys the originals.  Returns both
blocks. -/
def SafeOp (E : ElemType T) (src : Block T) (from_ size : Nat) (dst : Block T) (to_ : Nat) :
    Option (Block T × Block T) :=
  if E.is_nothrow_move_constructible || !E.is_copy_constructible then
    match uninitialized_move_n E src from_ dst to_ size with
    | some (s1, d1) =>
      match destroy_n s1 from_ size with
      | some s2 => some (s2, d1)
      | none => none
    | none => none
  else
    match uninitialized_copy_n src from_ dst to_ size with
    | some d1 =>
      match destroy_n src from_ size with
      | some s2 => some (s2, d1)
      | none => none
    | none => none

/-- The default constructor `Vector() = default`. -/
def ctor_default : Vector T :=
  {}

/-- The constructor `Vector(size_t size)`. -/
def ctor_size (E : ElemType T) (size : Nat) : Option (Vector T) :=
  let data : RawMemory T := RawMemory.ofCapacity_size_t E.sizeof_T size
  match uninitialized_value_construct_n E data.buffer_ 0 size with
  | some b => some { data_ := data.withBuffer b, size_ := size }
  | none => none

/-- The copy constructor `Vector(const Vector& other)`. -/
def ctor_copy (other : Vector T) : Option (Vector T) :=
  let data : RawMemory T := RawMemory.ofCapacity other.size_
  match uninitialized_copy_n other.data_.buffer_ 0 data.buffer_ 0 other.size_ with
  | some b => some { data_ := data.withBuffer b, size_ := other.size_ }
  | none => none

/-- The move constructor `Vector(Vector&& other)`; returns the new vector and `other`. -/
def ctor_move (other : Vector T) : Vector T × Vector T :=
  let r := RawMemory.Init {} other.data_
  ({ data_ := r.1, size_ := other.size_ }, { data_ := r.2, size_ := 0 })

/-- The destructor `~Vector()`: destroys the `size_` live elements; the block is released by
`~RawMemory()`. -/
def dtor (v : Vector T) : Option Unit :=
  match destroy_n v.data_.buffer_ 0 v.size_ with
  | some _ => some ()
  | none => none

/-- The member `Swap(Vector& other)`; returns the object and `other`. -/
def Swap (v other : Vector T) : Vector T × Vector T :=
  let r := RawMemory.Swap v.data_ other.data_
  ({ data_ := r.1, size_ := other.size_ }, { data_ := r.2, size_ := v.size_ })

/-- The copy assignment `operator=(const Vector& rhs)`.  `this_is_rhs` is the outcome of the
test `this == &rhs`; `rhs` is only read. -/
def assign_copy (this_is_rhs : Bool) (v rhs : Vector T) : Option (Vector T) :=
  if this_is_rhs then some v
  else if rhs.size_ > v.data_.Capacity then
    match ctor_copy rhs with
    | some rhs_copy =>
      let r := Swap v rhs_copy
      match dtor r.2 with
      | some _ => some r.1
      | none => none
    | none => none
  else
    let copy_elem := if rhs.size_ < v.size_ then rhs.size_ else v.size_
    match copy_n rhs.data_.buffer_ 0 v.data_.buffer_ 0 copy_elem with
    | some b1 =>
      let end_ := 0 + copy_elem
      let tail :=
        if rhs.size_ < v.size_ then destroy_n b1 end_ (v.size_ - rhs.size_)
        else uninitialized_copy_n rhs.data_.buffer_ (0 + v.size_) b1 end_ (rhs.size_ - v.size_)
      match tail with
      | some b2 => some { data_ := v.data_.withBuffer b2, size_ := rhs.size_ }
      | none => none
    | none => none

/-- The move assignment `operator=(Vector&& rhs)`; returns the object and `rhs`. -/
def assign_move (v rhs : Vector T) : Vector T × Vector T :=
  Swap v rhs

/-- The member `Reserve(size_t new_capacity)`. -/
def Reserve (E : ElemType T) (v : Vector T) (new_capacity : Nat) : Option (Vector T) :=
  if new_capacity ≤ v.data_.Capacity then some v
  else
    let new_data : RawMemory T := RawMemory.ofCapacity_size_t E.sizeof_T new_capacity
    match SafeOp E v.data_.buffer_ 0 v.size_ new_data.buffer_ 0 with
    | some (ob, nb) =>
      let r := RawMemory.Swap (v.data_.withBuffer ob) (new_data.withBuffer nb)
      some { data_ := r.1, size_ := v.size_ }
    | none => none

/-- The member `Resize(size_t new_size)`. -/
def Resize (E : ElemType T) (v : Vector T) (new_size : Nat) : Option (Vector T) :=
  if new_size < v.size_ then
    match destroy_n v.data_.buffer_ 0 (v.size_ - new_size) with
    | some b => some { data_ := v.data_.withBuffer b, size_ := new_size }
    | none => none
  else
    match Reserve E v new_size with
    | some v1 =>
      match uninitialized_value_construct_n E v1.data_.buffer_ 0 (new_size - v1.size_) with
      | some b => some { data_ := v1.data_.withBuffer b, size_ := new_size }
      | none => none
    | none => none

/-- The member `PushBack(const T& value)`. -/
def PushBack (E : ElemType T) (v : Vector T) (value : T) : Option (Vector T) :=
  if v.size_ = v.Capacity then
    let new_data : RawMemory T := RawMemory.ofCapacity (if v.size_ = 0 then 1 else v.size_ * 2)
    match construct_at new_data.buffer_ v.size_ value with
    | some nb0 =>
      match SafeOp E v.data_.buffer_ 0 v.size_ nb0 0 with
      | some (ob, nb) =>
        let r := RawMemory.Swap (v.data_.withBuffer ob) (new_data.withBuffer nb)
        some { data_ := r.1, size_ := v.size_ + 1 }
      | none => none
    | none => none
  else
    match construct_at v.data_.buffer_ v.size_ value with
    | some b => some { data_ := v.data_.withBuffer b, size_ := v.size_ + 1 }
    | none => none

/-- The member `EmplaceBack(Args&&... args)` with the constructed value `x`; returns the
vector and the slot of the returned reference `data_[size_ - 1]`. -/
def EmplaceBack (E : ElemType T) (v : Vector T) (x : T) : Option (Vector T × Nat) :=
  if v.size_ = v.Capacity then
    let new_data : RawMemory T := RawMemory.ofCapacity (if v.size_ = 0 then 1 else v.size_ * 2)
    match construct_at new_data.buffer_ v.size_ x with
    | some nb0 =>
      match SafeOp E v.data_.buffer_ 0 v.size_ nb0 0 with
      | some (ob, nb) =>
        let r := RawMemory.Swap (v.data_.withBuffer ob) (new_data.withBuffer nb)
        some ({ data_ := r.1, size_ := v.size_ + 1 }, v.size_ + 1 - 1)
      | none => none
    | none => none
  else
    match construct_at v.data_.buffer_ v.size_ x with
    | some b => some ({ data_ := v.data_.withBuffer b, size_ := v.size_ + 1 }, v.size_ + 1 - 1)
    | none => none

/-- The member `PushBack(T&& value)`. -/
def PushBack_move (E : ElemType T) (v : Vector T) (value : T) : Option (Vector T) :=
  match EmplaceBack E v value with
  | some r => some r.1
  | none => none

/-- The member `PopBack()`.  For `size_ = 0` the index `size_ - 1` wraps around and the
pointer leaves the block. -/
def PopBack (v : Vector T) : Option (Vector T) :=
  if v.size_ = 0 then none
  else
    match destroy_at v.data_.buffer_ (v.size_ - 1) with
    | some b => some { data_ := v.data_.withBuffer b, size_ := v.size_ - 1 }
    | none => none

/-- The private `EmplaceWithReallocate(pos, args...)` with the constructed value `x`. -/
def EmplaceWithReallocate (E : ElemType T) (v : Vector T) (pos : Nat) (x : T) :
    Option (Vector T × Nat) :=
  let new_data : RawMemory T := RawMemory.ofCapacity (if v.size_ = 0 then 1 else v.size_ * 2)
  let index := pos - v.cbegin
  match construct_at new_data.buffer_ index x with
  | some nb0 =>
    match SafeOp E v.data_.buffer_ 0 index nb0 0 with
    | some (ob1, nb1) =>
      match SafeOp E ob1 (0 + index) (v.size_ - index) nb1 (0 + (index + 1)) with
      | some (ob2, nb2) =>
        let r := RawMemory.Swap (v.data_.withBuffer ob2) (new_data.withBuffer nb2)
        some ({ data_ := r.1, size_ := v.size_ + 1 }, 0 + index)
      | none => none
    | none => none
  | none => none

/-- The private `EmplaceWithoutReallocate(pos, args...)` with the constructed value `x`.  For
`size_ = 0` the index `size_ - 1` wraps around and the access leaves the block. -/
def EmplaceWithoutReallocate (E : ElemType T) (v : Vector T) (pos : Nat) (x : T) :
    Option (Vector T × Nat) :=
  let index := pos - v.cbegin
  let tmp := x
  if v.size_ = 0 then none
  else
    match move_construct E v.data_.buffer_ (v.size_ - 1) v.cend with
    | some b1 =>
      match move_backward E b1 (v.cbegin + index) (v.cend - 1) v.cend with
      | some b2 =>
        match assign_at b2 index tmp with
        | some b3 =>
          some ({ data_ := v.data_.withBuffer b3, size_ := v.size_ + 1 }, v.cbegin + index)
        | none => none
      | none => none
    | none => none

/-- The member `Emplace(pos, args...)` with the constructed value `x`; `pos` is the slot the
iterator points to.  Returns the vector and the slot of the returned iterator. -/
def Emplace (E : ElemType T) (v : Vector T) (pos : Nat) (x : T) : Option (Vector T × Nat) :=
  if v.cbegin ≤ pos ∧ pos ≤ v.cend then
    if pos = v.cend then EmplaceBack E v x
    else if v.size_ = v.Capacity then EmplaceWithReallocate E v pos x
    else EmplaceWithoutReallocate E v pos x
  else none

/-- The members `Insert(pos, const T& value)` and `Insert(pos, T&& value)`. -/
def Insert (E : ElemType T) (v : Vector T) (pos : Nat) (value : T) : Option (Vector T × Nat) :=
  Emplace E v pos value

/-- The member `Erase(pos)`; returns the vector and the slot of the returned iterator. -/
def Erase (E : ElemType T) (v : Vector T) (pos : Nat) : Option (Vector T × Nat) :=
  if v.cbegin ≤ pos ∧ pos < v.cend then
    if 0 < v.size_ then
      let distance := pos - v.cbegin
      let pos_ := 0 + distance
      match std_move E v.data_.buffer_ (pos_ + 1) v.cend pos_ with
      | some b1 =>
        match destroy_at b1 (v.size_ - 1) with
        | some b2 => some ({ data_ := v.data_.withBuffer b2, size_ := v.size_ - 1 }, pos_)
        | none => none
      | none => none
    else none
  else none

/-! ## The data-model invariant and the abstract view -/

/-- The live elements of the vector, in index order: the contents of the first `size_`
slots. -/
def toList (v : Vector T) : List T :=
  (v.data_.buffer_.take v.size_).reduceOption

/-- The vector that holds the elements `xs` in a block of `cap` slots: the first slots are
live and hold `xs`, the remaining slots are uninitialised. -/
def rep (xs : List T) (cap : Nat) : Vector T :=
  { data_ := { buffer_ := xs.map some ++ List.replicate (cap - xs.length) none,
               capacity_ := cap },
    size_ := xs.length }

/-- The invariant of the data model: `size_ ≤ capacity_`, the block has `capacity_` slots, the
slots `[0, size_)` hold live objects and the slots `[size_, capacity_)` are uninitialised. -/
def Inv (v : Vector T) : Prop :=
  v.size_ ≤ v.data_.capacity_ ∧ v = rep v.toList v.data_.capacity_

/-- The capacity a full vector of `n` elements grows to: `size_ == 0 ? 1 : size_ * 2`. -/
def grown (n : Nat) : Nat :=
  if n = 0 then 1 else n * 2

/-- The three members that append one element. -/
inductive AppendCall where
  | PushBack_copy
  | PushBack_move
  | EmplaceBack
deriving DecidableEq

/-- One append call on the vector, with the appended value `x`. -/
def appendCall (E : ElemType T) (v : Vector T) (c : AppendCall) (x : T) : Option (Vector T) :=
  match c with
  | AppendCall.PushBack_copy => PushBack E v x
  | AppendCall.PushBack_move => PushBack_move E v x
  | AppendCall.EmplaceBack =>
    match EmplaceBack E v x with
    | some r => some r.1
    | none => none

/-- Consecutive append calls from left to right; the second component counts the calls that
reallocated, that is, changed the capacity, starting from `k`. -/
def appendAll (E : ElemType T) : List (AppendCall × T) → Vector T → Nat → Option (Vector T × Nat)
  | [], v, k => some (v, k)
  | c :: cs, v, k =>
    match appendCall E v c.1 c.2 with
    | some w => appendAll E cs w (if w.Capacity = v.Capacity then k else k + 1)
    | none => none

/-- The state of the doubling policy after `len` appends to an empty vector: the capacity is
a power of two `2 ^ e` with `2 ^ e / 2 < len ≤ 2 ^ e`, reached by `e + 1` reallocations. -/
def Grown (len cap k : Nat) : Prop :=
  (len = 0 ∧ cap = 0 ∧ k = 0) ∨ ∃ e, cap = 2 ^ e ∧ len ≤ 2 ^ e ∧ 2 ^ e < 2 * len ∧ k = e + 1

/-- The size/capacity invariant `0 ≤ size ≤ capacity`. -/
def SizeLeCapacity (v : Vector T) : Prop :=
  0 ≤ v.Size ∧ v.Size ≤ v.Capacity

instance instDecidableSizeLeCapacity (v : Vector T) : Decidable v.SizeLeCapacity :=
  inferInstanceAs (Decidable (_ ∧ _))

instance instDecidableInv [DecidableEq T] (v : Vector T) : Decidable v.Inv :=
  inferInstanceAs (Decidable (_ ∧ _))

end Vector

/-- Element type `int`: trivially copyable, value-initialised to 0, 4 bytes. -/
def intElem : ElemType Int :=
  { is_nothrow_move_constructible := true, is_copy_constructible := true,
    value_init := 0, moved_from := fun x => x, sizeof_T := 4, sizeof_pos := by decide }

/-- Element type `std::string`: nothrow move constructible, value-initialised to the empty
string, emptied when moved from, 32 bytes. -/
def strElem : ElemType String :=
  { is_nothrow_move_constructible := true, is_copy_constructible := true,
    value_init := "", moved_from := fun _ => "", sizeof_T := 32, sizeof_pos := by decide }

/-- An element type that is relocated by copy: copy constructible, its move constructor is
not `noexcept` (a `std::string`-like type whose copy constructor may throw). -/
def copyStrElem : ElemType String :=
  { is_nothrow_move_constructible := false, is_copy_constructible := true,
    value_init := "", moved_from := fun _ => "", sizeof_T := 32, sizeof_pos := by decide }

/-! ## Copy constructors that throw

The functions below are the functions of the same name above, followed once more with the
exceptions of the copy constructor of `T`.  `copy_throws i` tells whether the copy constructor
throws when it copies the object in slot `i` of the block the elements are relocated from.
Move constructors and destructors do not throw. -/

/-- How `std::uninitialized_copy_n` ends: all objects constructed, an exception passed on
after the roll-back, or undefined behaviour.  `dst` is the destination block. -/
inductive Copied (T : Type) where
  | done (dst : Block T)
  | threw (dst : Block T)
  | undefined
deriving DecidableEq

/-- How `SafeOp` ends: `src` and `dst` are the two blocks.  A throwing copy leaves the source
block as it was. -/
inductive Relocated (T : Type) where
  | done (src dst : Block T)
  | threw (dst : Block T)
  | undefined
deriving DecidableEq

/-- How a member of `Vector<T>` ends: it returns `r`; or an exception leaves it, `v` is the
vector as the caller finds it and `released` the new block in the state in which
`~RawMemory()` released it (`none` when the call had allocated no block); or the behaviour is
undefined. -/
inductive Outcome (T : Type) (α : Type) where
  | returned (r : α)
  | thrown (v : Vector T) (released : Option (Block T))
  | undefined
deriving DecidableEq

section Exceptions

variable {T : Type}

/-- The loop of `std::uninitialized_copy_n(src + first, n, dst + d_first)` with a copy
constructor that may throw; `current` is the slot under construction.  When the copy throws,
the objects constructed so far, in the slots `[d_first, current)`, are destroyed and the
exception is passed on. -/
def uninitialized_copy_n_ex (copy_throws : Nat → Bool) (src : Block T) (first : Nat)
    (dst : Block T) (d_first current : Nat) : Nat → Copied T
  | 0 => Copied.done dst
  | n + 1 =>
    match load src first with
    | some x =>
      if copy_throws first then
        match destroy_n dst d_first (current - d_first) with
        | some d => Copied.threw d
        | none => Copied.undefined
      else
        match construct_at dst current x with
        | some d1 => uninitialized_copy_n_ex copy_throws src (first + 1) d1 d_first (current + 1) n
        | none => Copied.undefined
    | none => Copied.undefined

namespace Vector

/-- The private `SafeOp(from, size, to)` with a copy constructor that may throw.  There is no
handler: an exception of `std::uninitialized_copy_n` leaves `SafeOp` before
`std::destroy_n(from, size)`. -/
def SafeOp_ex (copy_throws : Nat → Bool) (E : ElemType T) (src : Block T) (from_ size : Nat)
    (dst : Block T) (to_ : Nat) : Relocated T :=
  if E.is_nothrow_move_constructible || !E.is_copy_constructible then
    match uninitialized_move_n E src from_ dst to_ size with
    | some (s1, d1) =>
      match destroy_n s1 from_ size with
      | some s2 => Relocated.done s2 d1
      | none => Relocated.undefined
    | none => Relocated.undefined
  else
    match uninitialized_copy_n_ex copy_throws src from_ dst to_ to_ size with
    | Copied.done d1 =>
      match destroy_n src from_ size with
      | some s2 => Relocated.done s2 d1
      | none => Relocated.undefined
    | Copied.threw d1 => Relocated.threw d1
    | Copied.undefined => Relocated.undefined

/-- The members `PushBack(const T& value)` and `EmplaceBack(Args&&... args)`, whose bodies
agree, with a copy constructor that may throw.  `new_elem` is the outcome of constructing the
new element, `T(value)` or `T(std::forward<Args>(args)...)`: `some x` for an object of value
`x`, `none` for an exception.  There is no handler: an exception of `SafeOp` leaves the
function with the new element still constructed in `new_data`. -/
def EmplaceBack_ex (copy_throws : Nat → Bool) (E : ElemType T) (v : Vector T)
    (new_elem : Option T) : Outcome T (Vector T × Nat) :=
  if v.size_ = v.Capacity then
    let new_data : RawMemory T := RawMemory.ofCapacity (if v.size_ = 0 then 1 else v.size_ * 2)
    match new_elem with
    | some x =>
      match construct_at new_data.buffer_ v.size_ x with
      | some nb0 =>
        match SafeOp_ex copy_throws E v.data_.buffer_ 0 v.size_ nb0 0 with
        | Relocated.done ob nb =>
          let r := RawMemory.Swap (v.data_.withBuffer ob) (new_data.withBuffer nb)
          Outcome.returned ({ data_ := r.1, size_ := v.size_ + 1 }, v.size_ + 1 - 1)
        | Relocated.threw nb => Outcome.thrown v (some nb)
        | Relocated.undefined => Outcome.undefined
      | none => Outcome.undefined
    | none => Outcome.thrown v (some new_data.buffer_)
  else
    match new_elem with
    | some x =>
      match construct_at v.data_.buffer_ v.size_ x with
      | some b =>
        Outcome.returned ({ data_ := v.data_.withBuffer b, size_ := v.size_ + 1 },
          v.size_ + 1 - 1)
      | none => Outcome.undefined
    | none => Outcome.thrown v none

/-- The member `PushBack(const T& value)` with a copy constructor that may throw. -/
def PushBack_ex (copy_throws : Nat → Bool) (E : ElemType T) (v : Vector T)
    (new_elem : Option T) : Outcome T (Vector T) :=
  match EmplaceBack_ex copy_throws E v new_elem with
  | Outcome.returned r => Outcome.returned r.1
  | Outcome.thrown w released => Outcome.thrown w released
  | Outcome.undefined => Outcome.undefined

/-- The private `EmplaceWithReallocate(pos, args...)` with a copy constructor that may throw.
The first handler destroys the new element, the second one the `index + 1` leading objects of
`new_data`; both pass the exception on.  The first `SafeOp` has destroyed the objects
`[0, index)` of `data_` when the second one starts. -/
def EmplaceWithReallocate_ex (copy_throws : Nat → Bool) (E : ElemType T) (v : Vector T)
    (pos : Nat) (new_elem : Option T) : Outcome T (Vector T × Nat) :=
  let new_data : RawMemory T := RawMemory.ofCapacity (if v.size_ = 0 then 1 else v.size_ * 2)
  let index := pos - v.cbegin
  match new_elem with
  | some x =>
    match construct_at new_data.buffer_ index x with
    | some nb0 =>
      match SafeOp_ex copy_throws E v.data_.buffer_ 0 index nb0 0 with
      | Relocated.done ob1 nb1 =>
        match SafeOp_ex copy_throws E ob1 (0 + index) (v.size_ - index) nb1
            (0 + (index + 1)) with
        | Relocated.done ob2 nb2 =>
          let r := RawMemory.Swap (v.data_.withBuffer ob2) (new_data.withBuffer nb2)
          Outcome.returned ({ data_ := r.1, size_ := v.size_ + 1 }, 0 + index)
        | Relocated.threw nb2 =>
          match destroy_n nb2 0 (index + 1) with
          | some nb3 =>
            Outcome.thrown { data_ := v.data_.withBuffer ob1, size_ := v.size_ } (some nb3)
          | none => Outcome.undefined
        | Relocated.undefined => Outcome.undefined
      | Relocated.threw nb1 =>
        match destroy_at nb1 index with
        | some nb2 => Outcome.thrown v (some nb2)
        | none => Outcome.undefined
      | Relocated.undefined => Outcome.undefined
    | none => Outcome.undefined
  | none => Outcome.thrown v (some new_data.buffer_)

/-- The members `Emplace(pos, args...)` and `Insert(pos, value)` with a copy constructor that
may throw.  Without reallocation the new element is constructed first, in the local `tmp`;
the moves that follow do not throw. -/
def Emplace_ex (copy_throws : Nat → Bool) (E : ElemType T) (v : Vector T) (pos : Nat)
    (new_elem : Option T) : Outcome T (Vector T × Nat) :=
  if v.cbegin ≤ pos ∧ pos ≤ v.cend then
    if pos = v.cend then EmplaceBack_ex copy_throws E v new_elem
    else if v.size_ = v.Capacity then EmplaceWithReallocate_ex copy_throws E v pos new_elem
    else
      match new_elem with
      | some x =>
        match EmplaceWithoutReallocate E v pos x with
        | some r => Outcome.returned r
        | none => Outcome.undefined
      | none => Outcome.thrown v none
  else Outcome.undefined

/-- The members `Insert(pos, const T& value)` and `Insert(pos, T&& value)` with a copy
constructor that may throw. -/
def Insert_ex (copy_throws : Nat → Bool) (E : ElemType T) (v : Vector T) (pos : Nat)
    (new_elem : Option T) : Outcome T (Vector T × Nat) :=
  Emplace_ex copy_throws E v pos new_elem

/-- No slot of the block holds a live object. -/
def noLiveObject (b : Block T) : Bool :=
  b.all fun s => s.isNone

end Vector

end Exceptions

/-! ## `Optional<T>` (optional.h)

The storage `data_` of an `Optional<T>` holds at most one live object: `none` stands for bytes
that hold no live object.  A placement new into storage whose object is still live ends the
life of that object without running its destructor; the embedding keeps those objects in
`overwritten`, which is bookkeeping and not a member of the class.  The pointer `ptr_value_`
is `nullptr` or the address of `data_`. -/

/-- How a member of `Optional<T>` ends: it returns `r`, it throws `BadOptionalAccess`, or the
behaviour is undefined (access through `nullptr` or to storage without a live object). -/
inductive Result (α : Type) where
  | returned (r : α)
  | BadOptionalAccess
  | undefined
deriving DecidableEq

/-- The values of the member `ptr_value_`: `nullptr` and the address of `data_`. -/
inductive Ptr where
  | nullptr
  | data
deriving DecidableEq

/-- The class `Optional<T>` with its default member initialisers: the storage `data_`, the flag
`is_initialized_` and the pointer `ptr_value_`; `overwritten` lists the objects constructed
in `data_` whose storage was reused before their destructor ran. -/
structure Optional (T : Type) where
  data_ : Option T := none
  is_initialized_ : Bool := false
  ptr_value_ : Ptr := Ptr.nullptr
  overwritten : List T := []
deriving DecidableEq

namespace Optional

variable {T : Type}

/-- The member `HasValue()`. -/
def HasValue (o : Optional T) : Bool :=
  o.is_initialized_

/-- The object `*ptr_value_`: the pointer must point to `data_` and `data_` must hold a live
object. -/
def deref (o : Optional T) : Option T :=
  match o.ptr_value_, o.data_ with
  | Ptr.data, some x => some x
  | _, _ => none

/-- Placement new `ptr_value_ = new (&data_) T(x)`; an object still live in `data_` is
overwritten. -/
def construct (o : Optional T) (x : T) : Optional T :=
  { data_ := some x, is_initialized_ := o.is_initialized_, ptr_value_ := Ptr.data,
    overwritten := o.data_.toList ++ o.overwritten }

/-- Assignment `*ptr_value_ = x` to the live object. -/
def assign (o : Optional T) (x : T) : Option (Optional T) :=
  match o.deref with
  | some _ => some { o with data_ := some x }
  | none => none

/-- Destructor call `ptr_value_->~T()` on the live object. -/
def destroy (o : Optional T) : Option (Optional T) :=
  match o.deref with
  | some _ => some { o with data_ := none }
  | none => none

/-- The flag `is_initialized_` set to `b`. -/
def setInitialized (o : Optional T) (b : Bool) : Optional T :=
  { o with is_initialized_ := b }

/-- The objects constructed in the storage whose destructor has not run. -/
def undestroyed (o : Optional T) : List T :=
  o.data_.toList ++ o.overwritten

/-- The default constructor `Optional() = default`. -/
def ctor_default : Optional T :=
  {}

/-- The constructors `Optional(const T& value)` and `Optional(T&& value)`. -/
def ctor_value (value : T) : Optional T :=
  ((ctor_default : Optional T).construct value).setInitialized true

/-- The unchecked `operator*()`, in its three overloads. -/
def operator_star (o : Optional T) : Result T :=
  match o.deref with
  | some x => Result.returned x
  | none => Result.undefined

/-- The member `Value() &`. -/
def Value (o : Optional T) : Result T :=
  if o.HasValue then
    match o.deref with
    | some x => Result.returned x
    | none => Result.undefined
  else Result.BadOptionalAccess

/-- The member `Value() const&`. -/
def Value_const (o : Optional T) : Result T :=
  if o.HasValue then
    match o.deref with
    | some x => Result.returned x
    | none => Result.undefined
  else Result.BadOptionalAccess

/-- The member `Value() &&`: `return std::move(*ptr_value_)`. -/
def Value_rvalue (o : Optional T) : Result T :=
  match o.deref with
  | some x => Result.returned x
  | none => Result.undefined

/-- The member `Reset()`. -/
def Reset (o : Optional T) : Result (Optional T) :=
  match o.destroy with
  | some o1 => Result.returned (o1.setInitialized false)
  | none => Result.undefined

/-- The member `Emplace(Args&&... args)` with the constructed value `x`. -/
def Emplace (o : Optional T) (x : T) : Optional T :=
  (o.construct x).setInitialized true

/-- The destructor `~Optional()`; returns the objects constructed in the storage whose
destructor never ran. -/
def dtor (o : Optional T) : Result (List T) :=
  if o.HasValue then
    match o.destroy with
    | some o1 => Result.returned o1.undestroyed
    | none => Result.undefined
  else Result.returned o.undestroyed

/-- The assignments `operator=(const T& value)` and `operator=(T&& value)`. -/
def assign_value (o : Optional T) (value : T) : Result (Optional T) :=
  if o.HasValue then
    match o.assign value with
    | some o1 => Result.returned o1
    | none => Result.undefined
  else Result.returned ((o.construct value).setInitialized true)

/-- The source of a move: its object is left in the moved-from state. -/
def movedFrom (E : ElemType T) (o : Optional T) : Optional T :=
  { o with data_ := o.data_.map E.moved_from }

/-- The body of the copy constructor `Optional(const Optional& other)` on the object `self`
under construction; returns the object and `other`, which is only read. -/
def ctor_copy_body (self other : Optional T) : Result (Optional T × Optional T) :=
  if self.HasValue && !other.HasValue then
    match self.Reset with
    | Result.returned s => Result.returned (s, other)
    | Result.BadOptionalAccess => Result.BadOptionalAccess
    | Result.undefined => Result.undefined
  else if !self.HasValue && other.HasValue then
    match other.Value_const with
    | Result.returned x => Result.returned ((self.construct x).setInitialized true, other)
    | Result.BadOptionalAccess => Result.BadOptionalAccess
    | Result.undefined => Result.undefined
  else if self.HasValue && other.HasValue then
    match other.Value_const with
    | Result.returned x =>
      match self.assign x with
      | some s => Result.returned (s.setInitialized true, other)
      | none => Result.undefined
    | Result.BadOptionalAccess => Result.BadOptionalAccess
    | Result.undefined => Result.undefined
  else Result.returned (self, other)

/-- The copy constructor `Optional(const Optional& other)`: the body runs on members that
hold their default initialisers. -/
def ctor_copy (other : Optional T) : Result (Optional T × Optional T) :=
  ctor_copy_body {} other

/-- The body of the move constructor `Optional(Optional&& other)` on the object `self` under
construction; returns the object and `other`. -/
def ctor_move_body (E : ElemType T) (self other : Optional T) :
    Result (Optional T × Optional T) :=
  if self.HasValue && !other.HasValue then
    match self.Reset with
    | Result.returned s => Result.returned (s, other)
    | Result.BadOptionalAccess => Result.BadOptionalAccess
    | Result.undefined => Result.undefined
  else if !self.HasValue && other.HasValue then
    match other.Value with
    | Result.returned x =>
      Result.returned ((self.construct x).setInitialized true, other.movedFrom E)
    | Result.BadOptionalAccess => Result.BadOptionalAccess
    | Result.undefined => Result.undefined
  else if self.HasValue && other.HasValue then
    match other.Value with
    | Result.returned x =>
      match self.assign x with
      | some s => Result.returned (s.setInitialized true, other.movedFrom E)
      | none => Result.undefined
    | Result.BadOptionalAccess => Result.BadOptionalAccess
    | Result.undefined => Result.undefined
  else Result.returned (self, other)

/-- The move constructor `Optional(Optional&& other)`. -/
def ctor_move (E : ElemType T) (other : Optional T) : Result (Optional T × Optional T) :=
  ctor_move_body E {} other

/-- The copy assignment `operator=(const Optional& value)` between two distinct objects;
returns the object and `value`.  `std::move(value.Value())` is a `const T&&` here, so
`*this = ...` selects `operator=(const T&)` and the placement new the copy constructor. -/
def assign_copy (o value : Optional T) : Result (Optional T × Optional T) :=
  if o.HasValue && value.HasValue then
    match value.Value_const with
    | Result.returned x =>
      match o.assign_value x with
      | Result.returned o1 => Result.returned (o1.setInitialized true, value)
      | Result.BadOptionalAccess => Result.BadOptionalAccess
      | Result.undefined => Result.undefined
    | Result.BadOptionalAccess => Result.BadOptionalAccess
    | Result.undefined => Result.undefined
  else if !o.HasValue && value.HasValue then
    match value.Value_const with
    | Result.returned x => Result.returned ((o.construct x).setInitialized true, value)
    | Result.BadOptionalAccess => Result.BadOptionalAccess
    | Result.undefined => Result.undefined
  else if o.HasValue && !value.HasValue then
    match o.Reset with
    | Result.returned o1 => Result.returned (o1.setInitialized value.is_initialized_, value)
    | Result.BadOptionalAccess => Result.BadOptionalAccess
    | Result.undefined => Result.undefined
  else Result.returned (o, value)

/-- The move assignment `operator=(Optional&& value)` between two distinct objects; returns
the object and `value`.  `*this = std::move(value.Value())` selects `operator=(T&&)`. -/
def assign_move (E : ElemType T) (o value : Optional T) : Result (Optional T × Optional T) :=
  if o.HasValue && value.HasValue then
    match value.Value with
    | Result.returned x =>
      match o.assign_value x with
      | Result.returned o1 =>
        Result.returned (o1.setInitialized value.is_initialized_, value.movedFrom E)
      | Result.BadOptionalAccess => Result.BadOptionalAccess
      | Result.undefined => Result.undefined
    | Result.BadOptionalAccess => Result.BadOptionalAccess
    | Result.undefined => Result.undefined
  else if !o.HasValue && value.HasValue then
    match value.Value with
    | Result.returned x =>
      Result.returned ((o.construct x).setInitialized value.is_initialized_,
        value.movedFrom E)
    | Result.BadOptionalAccess => Result.BadOptionalAccess
    | Result.undefined => Result.undefined
  else if o.HasValue && !value.HasValue then
    match o.Reset with
    | Result.returned o1 => Result.returned (o1, value)
    | Result.BadOptionalAccess => Result.BadOptionalAccess
    | Result.undefined => Result.undefined
  else Result.returned (o, value)

/-- The invariant of the data model: the storage holds a live object, and the pointer points
to it, if and only if the flag is set; no object has been overwritten. -/
def Inv (o : Optional T) : Prop :=
  (o.is_initialized_ = true → o.ptr_value_ = Ptr.data ∧ o.data_.isSome = true) ∧
  (o.is_initialized_ = false → o.data_ = none) ∧ o.overwritten = []

instance instDecidableOptionalInv [DecidableEq T] (o : Optional T) : Decidable o.Inv :=
  inferInstanceAs (Decidable (_ ∧ _))

/-- The value held by the optional, `none` when it is empty. -/
def value? (o : Optional T) : Option T :=
  if o.HasValue then o.data_ else none

end Optional

/-! ## The loops on blocks -/

section BlockLemmas

variable {T : Type}

theorem load_mid (p q : Block T) (c : Option T) (i : Nat) (hi : i = p.length) :
    load (p ++ c :: q) i = c := by
  subst hi
  have : (p ++ c :: q)[p.length]? = some c := by
    rw [List.getElem?_append_right (le_refl _)]
    simp
  simp [load, this]

theorem set_mid (p q : Block T) (c d : Option T) (i : Nat) (hi : i = p.length) :
    (p ++ c :: q).set i d = p ++ d :: q := by
  subst hi
  simp

theorem length_mid_lt (p q : Block T) (c : Option T) (i : Nat) (hi : i = p.length) :
    i < (p ++ c :: q).length := by
  subst hi
  simp

theorem destroy_n_live (ys : List T) (p q : Block T) (first : Nat) (h : first = p.length) :
    destroy_n (p ++ ys.map some ++ q) first ys.length
      = some (p ++ List.replicate ys.length none ++ q) := by
  induction ys generalizing p first with
  | nil => simp [destroy_n]
  | cons y ys ih =>
    have h1 : first + 1 = (p ++ [none]).length := by simp [h]
    have := ih (p ++ [none]) (first + 1) h1
    simp only [List.map_cons, List.length_cons, destroy_n, destroy_at, List.append_assoc,
      List.cons_append, load_mid p _ (some y) first h, set_mid p _ (some y) none first h]
    simpa [List.replicate_succ] using this

theorem uninitialized_value_construct_n_fill (E : ElemType T) (hole : Block T)
    (p q : Block T) (first : Nat) (h : first = p.length) :
    uninitialized_value_construct_n E (p ++ hole ++ q) first hole.length
      = some (p ++ List.replicate hole.length (some E.value_init) ++ q) := by
  induction hole generalizing p first with
  | nil => simp [uninitialized_value_construct_n]
  | cons c hole ih =>
    have h1 : first + 1 = (p ++ [some E.value_init]).length := by simp [h]
    have := ih (p ++ [some E.value_init]) (first + 1) h1
    simp only [List.length_cons, uninitialized_value_construct_n, construct_at,
      List.append_assoc, List.cons_append, length_mid_lt p _ c first h, if_true,
      set_mid p _ c _ first h]
    simpa [List.replicate_succ] using this

theorem uninitialized_copy_n_fill (ys : List T) (p q : Block T) (first : Nat)
    (hole p2 q2 : Block T) (d_first : Nat) (h : first = p.length) (h2 : d_first = p2.length)
    (hl : hole.length = ys.length) :
    uninitialized_copy_n (p ++ ys.map some ++ q) first (p2 ++ hole ++ q2) d_first ys.length
      = some (p2 ++ ys.map some ++ q2) := by
  induction ys generalizing p first hole p2 d_first with
  | nil =>
    have : hole = [] := List.length_eq_zero.mp hl
    simp [uninitialized_copy_n, this]
  | cons y ys ih =>
    match hole, hl with
    | c :: hole, hl =>
      have h1 : first + 1 = (p ++ [some y]).length := by simp [h]
      have h3 : d_first + 1 = (p2 ++ [some y]).length := by simp [h2]
      have := ih (p ++ [some y]) (first + 1) hole (p2 ++ [some y]) (d_first + 1) h1 h3
        (by simpa using hl)
      simp only [List.map_cons, List.length_cons, uninitialized_copy_n, construct_at,
        List.append_assoc, List.cons_append, load_mid p _ (some y) first h,
        length_mid_lt p2 _ c d_first h2, if_true, set_mid p2 _ c _ d_first h2]
      simpa using this

theorem uninitialized_move_n_fill (E : ElemType T) (ys : List T) (p q : Block T) (first : Nat)
    (hole p2 q2 : Block T) (d_first : Nat) (h : first = p.length) (h2 : d_first = p2.length)
    (hl : hole.length = ys.length) :
    uninitialized_move_n E (p ++ ys.map some ++ q) first (p2 ++ hole ++ q2) d_first ys.length
      = some (p ++ (ys.map E.moved_from).map some ++ q, p2 ++ ys.map some ++ q2) := by
  induction ys generalizing p first hole p2 d_first with
  | nil =>
    have : hole = [] := List.length_eq_zero.mp hl
    simp [uninitialized_move_n, this]
  | cons y ys ih =>
    match hole, hl with
    | c :: hole, hl =>
      have h1 : first + 1 = (p ++ [some (E.moved_from y)]).length := by simp [h]
      have h3 : d_first + 1 = (p2 ++ [some y]).length := by simp [h2]
      have := ih (p ++ [some (E.moved_from y)]) (first + 1) hole (p2 ++ [some y]) (d_first + 1)
        h1 h3 (by simpa using hl)
      simp only [List.map_cons, List.length_cons, uninitialized_move_n, construct_at,
        List.append_assoc, List.cons_append, load_mid p _ (some y) first h,
        length_mid_lt p2 _ c d_first h2, if_true, set_mid p2 _ c _ d_first h2,
        set_mid p _ (some y) _ first h]
      simpa using this

theorem copy_n_live (ys zs : List T) (p q : Block T) (first : Nat)
    (p2 q2 : Block T) (d_first : Nat) (h : first = p.length) (h2 : d_first = p2.length)
    (hl : zs.length = ys.length) :
    copy_n (p ++ ys.map some ++ q) first (p2 ++ zs.map some ++ q2) d_first ys.length
      = some (p2 ++ ys.map some ++ q2) := by
  induction ys generalizing p first zs p2 d_first with
  | nil =>
    have : zs = [] := List.length_eq_zero.mp hl
    simp [copy_n, this]
  | cons y ys ih =>
    match zs, hl with
    | z :: zs, hl =>
      have h1 : first + 1 = (p ++ [some y]).length := by simp [h]
      have h3 : d_first + 1 = (p2 ++ [some y]).length := by simp [h2]
      have := ih zs (p ++ [some y]) (first + 1) (p2 ++ [some y]) (d_first + 1) h1 h3
        (by simpa using hl)
      simp only [List.map_cons, List.length_cons, copy_n, assign_at,
        List.append_assoc, List.cons_append, load_mid p _ (some y) first h,
        load_mid p2 _ (some z) d_first h2, set_mid p2 _ (some z) _ d_first h2]
      simpa using this

theorem move_assign_left (E : ElemType T) (p q : Block T) (a y : T) (src dst : Nat)
    (hd : dst = p.length) (hs : src = p.length + 1) :
    move_assign E (p ++ some a :: some y :: q) src dst
      = some (p ++ some y :: some (E.moved_from y) :: q) := by
  have e1 : p ++ some a :: some y :: q = (p ++ [some a]) ++ some y :: q := by simp
  have hs1 : src = (p ++ [some a]).length := by simp [hs]
  have l1 : load (p ++ some a :: some y :: q) src = some y := by
    rw [e1]; exact load_mid _ _ _ _ hs1
  have l2 : load (p ++ some a :: some y :: q) dst = some a := load_mid _ _ _ _ hd
  have hs2 : src = (p ++ [some y]).length := by simp [hs]
  have e2 : p ++ some y :: some y :: q = (p ++ [some y]) ++ some y :: q := by simp
  simp only [move_assign, l1, l2, set_mid p _ _ _ dst hd]
  rw [e2, set_mid _ _ _ _ src hs2]
  simp

theorem move_assign_right (E : ElemType T) (p q : Block T) (y a : T) (src dst : Nat)
    (hs : src = p.length) (hd : dst = p.length + 1) :
    move_assign E (p ++ some y :: some a :: q) src dst
      = some (p ++ some (E.moved_from y) :: some y :: q) := by
  have e1 : p ++ some y :: some a :: q = (p ++ [some y]) ++ some a :: q := by simp
  have hd1 : dst = (p ++ [some y]).length := by simp [hd]
  have l1 : load (p ++ some y :: some a :: q) src = some y := load_mid _ _ _ _ hs
  have l2 : load (p ++ some y :: some a :: q) dst = some a := by
    rw [e1]; exact load_mid _ _ _ _ hd1
  simp only [move_assign, l1, l2]
  rw [e1, set_mid _ _ _ _ dst hd1]
  have e2 : (p ++ [some y]) ++ some y :: q = p ++ some y :: some y :: q := by simp
  rw [e2, set_mid _ _ _ _ src hs]

theorem move_construct_right (E : ElemType T) (p q : Block T) (y : T) (c : Option T)
    (src dst : Nat) (hs : src = p.length) (hd : dst = p.length + 1) :
    move_construct E (p ++ some y :: c :: q) src dst
      = some (p ++ some (E.moved_from y) :: some y :: q) := by
  have e1 : p ++ some y :: c :: q = (p ++ [some y]) ++ c :: q := by simp
  have hd1 : dst = (p ++ [some y]).length := by simp [hd]
  have l1 : load (p ++ some y :: c :: q) src = some y := load_mid _ _ _ _ hs
  have l2 : dst < (p ++ some y :: c :: q).length := by
    rw [e1]; exact length_mid_lt _ _ _ _ hd1
  simp only [move_construct, l1, l2, if_true]
  rw [e1, set_mid _ _ _ _ dst hd1]
  have e2 : (p ++ [some y]) ++ some y :: q = p ++ some y :: some y :: q := by simp
  rw [e2, set_mid _ _ _ _ src hs]

/-- The forward range move shifts the live run `ys` one slot to the left, over the live
slot in front of it; the slot behind the run stays live (moved from). -/
theorem move_loop_shift (E : ElemType T) (ys : List T) (a : T) (p q : Block T)
    (first d_first : Nat) (hd : d_first = p.length) (hf : first = p.length + 1) :
    ∃ z, move_loop E (p ++ some a :: (ys.map some ++ q)) first d_first ys.length
      = some (p ++ ys.map some ++ some z :: q) := by
  induction ys generalizing a p first d_first with
  | nil => exact ⟨a, by simp [move_loop]⟩
  | cons y ys ih =>
    have hd1 : d_first + 1 = (p ++ [some y]).length := by simp [hd]
    have hf1 : first + 1 = (p ++ [some y]).length + 1 := by simp [hf]
    obtain ⟨z, hz⟩ := ih (E.moved_from y) (p ++ [some y]) (first + 1) (d_first + 1) hd1 hf1
    refine ⟨z, ?_⟩
    simp only [List.map_cons, List.length_cons, move_loop, List.cons_append,
      move_assign_left E p _ a y first d_first hd hf]
    simpa using hz

/-- The backward range move shifts the live run `ys` one slot to the right, over the live
slot behind it; the first slot of the run stays live (moved from). -/
theorem move_backward_loop_shift (E : ElemType T) (ys : List T) (a : T) (p q : Block T)
    (last d_last : Nat) (hl : last = p.length + ys.length) (hd : d_last = last + 1) :
    ∃ z, move_backward_loop E (p ++ ys.map some ++ some a :: q) last d_last ys.length
      = some (p ++ some z :: (ys.map some ++ q)) := by
  induction ys using List.reverseRecOn generalizing a q last d_last with
  | nil => exact ⟨a, by simp [move_backward_loop]⟩
  | append_singleton ys y ih =>
    have hl0 : last = p.length + (ys.length + 1) := by simpa using hl
    have hl1 : last - 1 = p.length + ys.length := by omega
    have hd1 : d_last - 1 = (last - 1) + 1 := by omega
    obtain ⟨z, hz⟩ := ih (E.moved_from y) (some y :: q) (last - 1) (d_last - 1) hl1 hd1
    refine ⟨z, ?_⟩
    have hpos : 0 < last ∧ 0 < d_last := by omega
    have e1 : p ++ List.map some (ys ++ [y]) ++ some a :: q
        = (p ++ ys.map some) ++ some y :: some a :: q := by simp
    have hs : last - 1 = (p ++ ys.map some).length := by simp [hl1]
    have hd2 : d_last - 1 = (p ++ ys.map some).length + 1 := by simp [hd1, hl1]
    have hn : (ys ++ [y]).length = ys.length + 1 := by simp
    rw [hn, e1]
    simp only [move_backward_loop, hpos, and_self, if_true,
      move_assign_right E _ _ y a (last - 1) (d_last - 1) hs hd2]
    simpa using hz

/-- `SafeOp` relocates the live run `ys` into the slots `hole` of the other block and leaves
the slots it came from uninitialised, whichever of move and copy the traits select. -/
theorem SafeOp_relocate (E : ElemType T) (ys : List T) (p q : Block T) (from_ : Nat)
    (hole p2 q2 : Block T) (to_ : Nat) (h : from_ = p.length) (h2 : to_ = p2.length)
    (hl : hole.length = ys.length) :
    Vector.SafeOp E (p ++ ys.map some ++ q) from_ ys.length (p2 ++ hole ++ q2) to_
      = some (p ++ List.replicate ys.length none ++ q, p2 ++ ys.map some ++ q2) := by
  unfold Vector.SafeOp
  have hd := destroy_n_live (ys.map E.moved_from) p q from_ h
  simp only [List.length_map] at hd
  split
  · simp only [uninitialized_move_n_fill E ys p q from_ hole p2 q2 to_ h h2 hl, hd]
  · simp only [uninitialized_copy_n_fill ys p q from_ hole p2 q2 to_ h h2 hl,
      destroy_n_live ys p q from_ h]

theorem construct_at_mid (p q : Block T) (c : Option T) (i : Nat) (x : T)
    (hi : i = p.length) : construct_at (p ++ c :: q) i x = some (p ++ some x :: q) := by
  simp only [construct_at, length_mid_lt p q c i hi, if_true, set_mid p q c _ i hi]

theorem destroy_at_mid (p q : Block T) (a : T) (i : Nat) (hi : i = p.length) :
    destroy_at (p ++ some a :: q) i = some (p ++ none :: q) := by
  simp only [destroy_at, load_mid p q _ i hi, set_mid p q _ _ i hi]

theorem assign_at_mid (p q : Block T) (a x : T) (i : Nat) (hi : i = p.length) :
    assign_at (p ++ some a :: q) i x = some (p ++ some x :: q) := by
  simp only [assign_at, load_mid p q _ i hi, set_mid p q _ _ i hi]

theorem replicate_split (n i : Nat) (h : i < n) :
    List.replicate n (none : Option T)
      = List.replicate i none ++ none :: List.replicate (n - i - 1) none := by
  have e : n = i + ((n - i - 1) + 1) := by omega
  conv_lhs => rw [e, List.replicate_add, List.replicate_succ]

theorem Allocate_eq (n : Nat) : (RawMemory.Allocate n : Block T) = List.replicate n none := by
  unfold RawMemory.Allocate
  split
  · rfl
  · rename_i h
    have : n = 0 := by omega
    simp [this]

theorem Allocate_size_t_eq (sizeof_T n : Nat) (hs : 0 < sizeof_T)
    (h : n * sizeof_T < 2 ^ 64) :
    (RawMemory.Allocate_size_t sizeof_T n : Block T) = List.replicate n none := by
  unfold RawMemory.Allocate_size_t
  split
  · rw [Nat.mod_eq_of_lt h, Nat.mul_div_cancel n hs]
  · rename_i h0
    have : n = 0 := by omega
    simp [this]

end BlockLemmas

/-! ## The operations on a well-formed vector -/

namespace Vector

variable {T : Type}

theorem reduceOption_map_some (xs : List T) : (xs.map some).reduceOption = xs := by
  induction xs with
  | nil => rfl
  | cons y ys ih => simp [List.reduceOption_cons_of_some, ih]

theorem toList_rep (xs : List T) (cap : Nat) : (rep xs cap).toList = xs := by
  have h : (xs.map some ++ List.replicate (cap - xs.length) none).take xs.length
      = xs.map some := by
    simp
  simp only [toList, rep, h, reduceOption_map_some]

theorem Inv_rep (xs : List T) (cap : Nat) (h : xs.length ≤ cap) : (rep xs cap).Inv := by
  refine ⟨h, ?_⟩
  rw [toList_rep]
  rfl

theorem Inv.eq_rep {v : Vector T} (h : v.Inv) : v = rep v.toList v.data_.capacity_ :=
  h.2

theorem Inv.length_toList {v : Vector T} (h : v.Inv) : v.toList.length = v.size_ := by
  have := congrArg Vector.size_ h.2
  simpa [rep] using this.symm

theorem lt_grown (n : Nat) : n < grown n := by
  unfold grown
  split <;> omega

theorem rep_full_buffer (xs : List T) :
    (rep xs xs.length).data_.buffer_ = [] ++ xs.map some ++ [] := by
  simp [rep]

theorem rep_buffer_raw (xs : List T) (cap : Nat) (h : xs.length < cap) :
    (rep xs cap).data_.buffer_
      = xs.map some ++ none :: List.replicate (cap - xs.length - 1) none := by
  have e : cap - xs.length = (cap - xs.length - 1) + 1 := by omega
  simp only [rep]
  conv_lhs => rw [e, List.replicate_succ]

theorem PushBack_rep (E : ElemType T) (xs : List T) (cap : Nat) (x : T)
    (h : xs.length ≤ cap) :
    PushBack E (rep xs cap) x
      = some (rep (xs ++ [x]) (if xs.length = cap then grown xs.length else cap)) := by
  by_cases hc : xs.length = cap
  · subst hc
    have hn := lt_grown xs.length
    have hs := SafeOp_relocate E xs [] [] 0 (List.replicate xs.length none) []
      (some x :: List.replicate (grown xs.length - xs.length - 1) none) 0 rfl rfl (by simp)
    have hsz : (rep xs xs.length).size_ = xs.length := rfl
    have hcap : (rep xs xs.length).Capacity = xs.length := rfl
    simp only [PushBack, hsz, hcap, if_true, RawMemory.ofCapacity, Allocate_eq,
      RawMemory.withBuffer, RawMemory.Swap, rep_full_buffer]
    rw [← grown, replicate_split (grown xs.length) xs.length hn,
      construct_at_mid _ _ _ _ _ (by simp)]
    simp only [List.nil_append] at hs ⊢
    simp only [hs]
    simp [rep, Nat.sub_sub]
  · have hlt : xs.length < cap := by omega
    have hsz : (rep xs cap).size_ = xs.length := rfl
    have hcap : (rep xs cap).Capacity = cap := rfl
    simp only [PushBack, hsz, hcap, hc, if_false, rep_buffer_raw xs cap hlt,
      construct_at_mid _ _ _ _ _ (List.length_map xs some).symm, RawMemory.withBuffer]
    simp [rep, Nat.sub_sub]

theorem EmplaceBack_rep (E : ElemType T) (xs : List T) (cap : Nat) (x : T)
    (h : xs.length ≤ cap) :
    EmplaceBack E (rep xs cap) x
      = some (rep (xs ++ [x]) (if xs.length = cap then grown xs.length else cap),
          xs.length) := by
  by_cases hc : xs.length = cap
  · subst hc
    have hn := lt_grown xs.length
    have hs := SafeOp_relocate E xs [] [] 0 (List.replicate xs.length none) []
      (some x :: List.replicate (grown xs.length - xs.length - 1) none) 0 rfl rfl (by simp)
    have hsz : (rep xs xs.length).size_ = xs.length := rfl
    have hcap : (rep xs xs.length).Capacity = xs.length := rfl
    simp only [EmplaceBack, hsz, hcap, if_true, RawMemory.ofCapacity, Allocate_eq,
      RawMemory.withBuffer, RawMemory.Swap, rep_full_buffer]
    rw [← grown, replicate_split (grown xs.length) xs.length hn,
      construct_at_mid _ _ _ _ _ (by simp)]
    simp only [List.nil_append] at hs ⊢
    simp only [hs]
    simp [rep, Nat.sub_sub]
  · have hlt : xs.length < cap := by omega
    have hsz : (rep xs cap).size_ = xs.length := rfl
    have hcap : (rep xs cap).Capacity = cap := rfl
    simp only [EmplaceBack, hsz, hcap, hc, if_false, rep_buffer_raw xs cap hlt,
      construct_at_mid _ _ _ _ _ (List.length_map xs some).symm, RawMemory.withBuffer]
    simp [rep, Nat.sub_sub]

theorem EmplaceWithReallocate_rep (E : ElemType T) (l r : List T) (x : T) :
    EmplaceWithReallocate E (rep (l ++ r) (l ++ r).length) l.length x
      = some (rep (l ++ x :: r) (grown (l ++ r).length), l.length) := by
  have hn := lt_grown (l ++ r).length
  have hl : l.length < grown (l ++ r).length := by
    have : l.length ≤ (l ++ r).length := by simp
    omega
  have hsz : (rep (l ++ r) (l ++ r).length).size_ = (l ++ r).length := rfl
  have hidx : l.length - (rep (l ++ r) (l ++ r).length).cbegin = l.length := rfl
  have hbuf : (rep (l ++ r) (l ++ r).length).data_.buffer_
      = [] ++ l.map some ++ r.map some := by simp [rep]
  have hrest : grown (l ++ r).length - l.length - 1
      = r.length + (grown (l ++ r).length - (l ++ r).length - 1) := by
    simp only [List.length_append] at hn ⊢
    omega
  have hs1 := SafeOp_relocate E l [] (r.map some) 0 (List.replicate l.length none) []
    (some x :: (List.replicate r.length none
      ++ List.replicate (grown (l ++ r).length - (l ++ r).length - 1) none)) 0 rfl rfl
    (by simp)
  have hs2 := SafeOp_relocate E r (List.replicate l.length none) [] (0 + l.length)
    (List.replicate r.length none) (l.map some ++ [some x])
    (List.replicate (grown (l ++ r).length - (l ++ r).length - 1) none) (0 + (l.length + 1))
    (by simp) (by simp) (by simp)
  have hrl : (l ++ r).length - l.length = r.length := by simp
  simp only [EmplaceWithReallocate, hsz, hidx, hrl, RawMemory.ofCapacity, Allocate_eq,
    RawMemory.withBuffer, RawMemory.Swap, hbuf]
  rw [← grown, replicate_split (grown (l ++ r).length) l.length hl,
    construct_at_mid _ _ _ _ _ (by simp), hrest, List.replicate_add]
  simp only [List.nil_append, List.append_nil, List.append_assoc, List.singleton_append,
    List.cons_append, Nat.zero_add] at hs1 hs2 ⊢
  simp only [hs1, hs2]
  simp [rep, Nat.sub_sub, Nat.add_assoc]

theorem EmplaceWithoutReallocate_rep (E : ElemType T) (l r : List T) (a x : T) (cap : Nat)
    (h : (l ++ r ++ [a]).length < cap) :
    EmplaceWithoutReallocate E (rep (l ++ r ++ [a]) cap) l.length x
      = some (rep (l ++ x :: r ++ [a]) cap, l.length) := by
  generalize hv : rep (l ++ r ++ [a]) cap = v
  have hlen : (l ++ r ++ [a]).length = l.length + r.length + 1 := by
    simp only [List.length_append, List.length_singleton]
  have hsz : v.size_ = l.length + r.length + 1 := by rw [← hv]; exact hlen
  have hbuf : v.data_.buffer_ = (l.map some ++ r.map some) ++ some a :: none ::
      List.replicate (cap - (l ++ r ++ [a]).length - 1 - 0) none := by
    rw [← hv, rep_buffer_raw _ cap h]
    simp
  have hne : ¬ v.size_ = 0 := by omega
  have hcb : v.cbegin = 0 := rfl
  have hce : v.cend = l.length + r.length + 1 + 1 - 1 := by
    simp only [cend, hsz]; omega
  have h1 : move_construct E v.data_.buffer_ (v.size_ - 1) v.cend
      = some ((l.map some ++ r.map some) ++ some (E.moved_from a) :: some a ::
          List.replicate (cap - (l ++ r ++ [a]).length - 1 - 0) none) := by
    rw [hbuf]
    exact move_construct_right E _ _ a none _ _ (by simp [hsz]) (by simp [hce])
  obtain ⟨z, hz⟩ := move_backward_loop_shift E r (E.moved_from a) (l.map some)
    (some a :: List.replicate (cap - (l ++ r ++ [a]).length - 1 - 0) none)
    (v.cend - 1) v.cend (by simp [hce]) (by simp [hce])
  have h2 : move_backward E ((l.map some ++ r.map some) ++ some (E.moved_from a) :: some a ::
          List.replicate (cap - (l ++ r ++ [a]).length - 1 - 0) none)
        (v.cbegin + (l.length - v.cbegin)) (v.cend - 1) v.cend
      = some (l.map some ++ some z :: (r.map some ++ some a ::
          List.replicate (cap - (l ++ r ++ [a]).length - 1 - 0) none)) := by
    have hle : v.cbegin + (l.length - v.cbegin) ≤ v.cend - 1 := by rw [hcb, hce]; omega
    have hn : v.cend - 1 - (v.cbegin + (l.length - v.cbegin)) = r.length := by
      rw [hcb, hce]; omega
    simp only [move_backward, hle, if_true, hn]
    simpa using hz
  have h3 : assign_at (l.map some ++ some z :: (r.map some ++ some a ::
          List.replicate (cap - (l ++ r ++ [a]).length - 1 - 0) none)) (l.length - v.cbegin) x
      = some (l.map some ++ some x :: (r.map some ++ some a ::
          List.replicate (cap - (l ++ r ++ [a]).length - 1 - 0) none)) :=
    assign_at_mid _ _ z x _ (by simp [hcb])
  simp only [EmplaceWithoutReallocate, hne, if_false, h1, h2, h3]
  rw [← hv]
  simp [rep, RawMemory.withBuffer, cbegin, Nat.sub_sub, Nat.add_assoc]

theorem Emplace_rep (E : ElemType T) (xs : List T) (cap pos : Nat) (x : T)
    (h : xs.length ≤ cap) (hp : pos ≤ xs.length) :
    Emplace E (rep xs cap) pos x
      = some (rep (xs.take pos ++ x :: xs.drop pos)
          (if xs.length = cap then grown xs.length else cap), pos) := by
  have hsz : (rep xs cap).size_ = xs.length := rfl
  have hcap : (rep xs cap).Capacity = cap := rfl
  have hrange : (rep xs cap).cbegin ≤ pos ∧ pos ≤ (rep xs cap).cend := by
    simp only [cbegin, cend, hsz]; omega
  have hce : (rep xs cap).cend = xs.length := by simp only [cend, hsz]; omega
  simp only [Emplace, cbegin, cend, hsz, hcap, Nat.zero_add, Nat.zero_le, true_and, hp,
    if_true]
  by_cases he : pos = xs.length
  · subst he
    simp only [if_true, EmplaceBack_rep E xs cap x h]
    simp
  · have hlt : pos < xs.length := by omega
    have hl : (xs.take pos).length = pos := by simp; omega
    have hsplit : xs.take pos ++ xs.drop pos = xs := List.take_append_drop pos xs
    simp only [he, if_false]
    by_cases hc : xs.length = cap
    · subst hc
      simp only [if_true]
      have := EmplaceWithReallocate_rep E (xs.take pos) (xs.drop pos) x
      rw [hsplit, hl] at this
      exact this
    · simp only [hc, if_false]
      have hne : xs.drop pos ≠ [] := by
        intro hnil
        have := congrArg List.length hnil
        simp at this
        omega
      have hd : xs.drop pos = (xs.drop pos).dropLast ++ [(xs.drop pos).getLast hne] :=
        (List.dropLast_append_getLast hne).symm
      have hx : xs = xs.take pos ++ (xs.drop pos).dropLast ++ [(xs.drop pos).getLast hne] := by
        rw [List.append_assoc, ← hd, hsplit]
      have := EmplaceWithoutReallocate_rep E (xs.take pos) (xs.drop pos).dropLast
        ((xs.drop pos).getLast hne) x cap (by rw [← hx]; omega)
      rw [← hx, hl] at this
      rw [this, List.append_assoc, List.cons_append, ← hd]

theorem Erase_rep (E : ElemType T) (l r : List T) (a : T) (cap : Nat)
    (h : (l ++ a :: r).length ≤ cap) :
    Erase E (rep (l ++ a :: r) cap) l.length = some (rep (l ++ r) cap, l.length) := by
  generalize hv : rep (l ++ a :: r) cap = v
  have hlen : (l ++ a :: r).length = l.length + r.length + 1 := by
    simp only [List.length_append, List.length_cons]; omega
  have hsz : v.size_ = l.length + r.length + 1 := by rw [← hv]; exact hlen
  have hbuf : v.data_.buffer_ = l.map some ++ some a ::
      (r.map some ++ List.replicate (cap - (l ++ a :: r).length) none) := by
    rw [← hv]
    simp [rep]
  have hcb : v.cbegin = 0 := rfl
  have hce : v.cend = l.length + r.length + 1 := by simp only [cend, hsz]; omega
  have hrange : v.cbegin ≤ l.length ∧ l.length < v.cend := by rw [hcb, hce]; omega
  have hpos : 0 < v.size_ := by omega
  obtain ⟨z, hz⟩ := move_loop_shift E r a (l.map some)
    (List.replicate (cap - (l ++ a :: r).length) none)
    (0 + (l.length - v.cbegin) + 1) (0 + (l.length - v.cbegin))
    (by simp [hcb]) (by simp [hcb])
  have h1 : std_move E v.data_.buffer_ (0 + (l.length - v.cbegin) + 1) v.cend
      (0 + (l.length - v.cbegin))
      = some (l.map some ++ r.map some ++ some z ::
          List.replicate (cap - (l ++ a :: r).length) none) := by
    have hle : 0 + (l.length - v.cbegin) + 1 ≤ v.cend := by rw [hcb, hce]; omega
    have hn : v.cend - (0 + (l.length - v.cbegin) + 1) = r.length := by rw [hcb, hce]; omega
    simp only [std_move, hle, if_true, hn, hbuf]
    exact hz
  have h2 : destroy_at (l.map some ++ r.map some ++ some z ::
          List.replicate (cap - (l ++ a :: r).length) none) (v.size_ - 1)
      = some (l.map some ++ r.map some ++ none ::
          List.replicate (cap - (l ++ a :: r).length) none) :=
    destroy_at_mid _ _ z _ (by simp [hsz])
  simp only [Erase, hrange, and_self, if_true, hpos, h1, h2]
  rw [← hv]
  have hc : cap - (l.length + r.length) = (cap - (l ++ a :: r).length) + 1 := by omega
  simp [rep, RawMemory.withBuffer, cbegin, hc, List.replicate_succ]

theorem Erase_rep_at (E : ElemType T) (xs : List T) (cap pos : Nat)
    (h : xs.length ≤ cap) (hp : pos < xs.length) :
    Erase E (rep xs cap) pos = some (rep (xs.take pos ++ xs.drop (pos + 1)) cap, pos) := by
  have hl : (xs.take pos).length = pos := by simp; omega
  have hx : xs = xs.take pos ++ xs[pos] :: xs.drop (pos + 1) := by
    rw [← List.drop_eq_getElem_cons hp, List.take_append_drop]
  have := Erase_rep E (xs.take pos) (xs.drop (pos + 1)) xs[pos] cap (by rw [← hx]; exact h)
  rw [← hx, hl] at this
  exact this

theorem Inv.exists_rep {v : Vector T} (h : v.Inv) :
    ∃ xs cap, v = rep xs cap ∧ xs.length ≤ cap :=
  ⟨v.toList, v.data_.capacity_, h.eq_rep, by rw [h.length_toList]; exact h.1⟩

theorem length_insert_le (xs : List T) (cap pos : Nat) (x : T) (h : xs.length ≤ cap)
    (hp : pos ≤ xs.length) :
    (xs.take pos ++ x :: xs.drop pos).length
      ≤ (if xs.length = cap then grown xs.length else cap) := by
  have hg := lt_grown xs.length
  have : (xs.take pos ++ x :: xs.drop pos).length = xs.length + 1 := by
    simp; omega
  rw [this]
  split <;> omega

theorem rep_buffer_split (xs : List T) (cap : Nat) :
    (rep xs cap).data_.buffer_
      = [] ++ xs.map some ++ List.replicate (cap - xs.length) none := by
  simp [rep]

theorem Reserve_rep (E : ElemType T) (xs : List T) (cap n : Nat) (h : xs.length ≤ cap)
    (hfit : n ≤ cap ∨ n * E.sizeof_T < 2 ^ 64) :
    Reserve E (rep xs cap) n = some (rep xs (max cap n)) := by
  by_cases hn : n ≤ cap
  · have hc : n ≤ (rep xs cap).data_.Capacity := hn
    simp only [Reserve, hc, if_true, max_eq_left hn]
  · have hc : ¬ n ≤ (rep xs cap).data_.Capacity := hn
    have hfit2 : n * E.sizeof_T < 2 ^ 64 := hfit.resolve_left hn
    have hm : max cap n = n := max_eq_right (by omega)
    have hsz : (rep xs cap).size_ = xs.length := rfl
    have hrep : List.replicate n (none : Option T)
        = [] ++ List.replicate xs.length none ++ List.replicate (n - xs.length) none := by
      have e : n = xs.length + (n - xs.length) := by omega
      conv_lhs => rw [e, List.replicate_add]
      simp
    have hs := SafeOp_relocate E xs [] (List.replicate (cap - xs.length) none) 0
      (List.replicate xs.length none) [] (List.replicate (n - xs.length) none) 0 rfl rfl
      (by simp)
    simp only [Reserve, hc, if_false, hsz, RawMemory.ofCapacity_size_t,
      Allocate_size_t_eq E.sizeof_T n E.sizeof_pos hfit2,
      RawMemory.withBuffer, RawMemory.Swap, rep_buffer_split, hm]
    rw [hrep, hs]
    simp [rep]

theorem ctor_size_eq (E : ElemType T) (n : Nat) (hfit : n * E.sizeof_T < 2 ^ 64) :
    ctor_size E n = some (rep (List.replicate n E.value_init) n) := by
  have hf := uninitialized_value_construct_n_fill E (List.replicate n none) [] [] 0 rfl
  simp only [List.length_replicate, List.nil_append, List.append_nil] at hf
  simp only [ctor_size, RawMemory.ofCapacity_size_t,
    Allocate_size_t_eq E.sizeof_T n E.sizeof_pos hfit, RawMemory.withBuffer, hf]
  simp [rep]

theorem ctor_copy_rep (xs : List T) (cap : Nat) :
    ctor_copy (rep xs cap) = some (rep xs xs.length) := by
  have hf := uninitialized_copy_n_fill xs [] (List.replicate (cap - xs.length) none) 0
    (List.replicate xs.length none) [] [] 0 rfl rfl (by simp)
  have hsz : (rep xs cap).size_ = xs.length := rfl
  simp only [ctor_copy, hsz, RawMemory.ofCapacity, Allocate_eq, RawMemory.withBuffer,
    rep_buffer_split]
  simp only [List.append_nil, List.nil_append] at hf ⊢
  rw [hf]
  simp [rep]

theorem dtor_rep (xs : List T) (cap : Nat) : dtor (rep xs cap) = some () := by
  have hd := destroy_n_live xs [] (List.replicate (cap - xs.length) none) 0 rfl
  have hsz : (rep xs cap).size_ = xs.length := rfl
  simp only [dtor, hsz, rep_buffer_split, hd]

theorem PopBack_rep (xs : List T) (a : T) (cap : Nat) (h : (xs ++ [a]).length ≤ cap) :
    PopBack (rep (xs ++ [a]) cap) = some (rep xs cap) := by
  have hlen : (xs ++ [a]).length = xs.length + 1 := by simp
  have hsz : (rep (xs ++ [a]) cap).size_ = xs.length + 1 := hlen
  have hne : ¬ xs.length + 1 = 0 := by omega
  have hbuf : (rep (xs ++ [a]) cap).data_.buffer_
      = xs.map some ++ some a :: List.replicate (cap - (xs ++ [a]).length) none := by
    simp [rep]
  have hc : cap - xs.length = (cap - (xs ++ [a]).length) + 1 := by omega
  simp only [PopBack, hsz, hne, if_false, hbuf, Nat.add_sub_cancel,
    destroy_at_mid _ _ a _ (List.length_map xs some).symm, RawMemory.withBuffer]
  simp [rep, hc, List.replicate_succ]

theorem uninitialized_value_construct_n_front (E : ElemType T) (b : Block T) (m : Nat)
    (h : m ≤ b.length) :
    uninitialized_value_construct_n E b 0 m
      = some (List.replicate m (some E.value_init) ++ b.drop m) := by
  have hf := uninitialized_value_construct_n_fill E (b.take m) [] (b.drop m) 0 rfl
  have hl : (b.take m).length = m := by simp; omega
  rw [hl] at hf
  simpa using hf

/-- What `Resize` computes on a well-formed vector: when shrinking the leading
`size - new_size` slots are destroyed, when growing the new elements are constructed in the
leading `new_size - size` slots. -/
theorem Resize_rep (E : ElemType T) (xs : List T) (cap n : Nat) (h : xs.length ≤ cap)
    (hfit : n ≤ cap ∨ n * E.sizeof_T < 2 ^ 64) :
    Resize E (rep xs cap) n
      = some (if n < xs.length then
          { data_ := { buffer_ := List.replicate (xs.length - n) none
                         ++ (xs.drop (xs.length - n)).map some
                         ++ List.replicate (cap - xs.length) none,
                       capacity_ := cap },
            size_ := n }
        else
          { data_ := { buffer_ := List.replicate (n - xs.length) (some E.value_init)
                         ++ (xs.map some
                              ++ List.replicate (max cap n - xs.length) none).drop
                                (n - xs.length),
                       capacity_ := max cap n },
            size_ := n }) := by
  have hsz : (rep xs cap).size_ = xs.length := rfl
  by_cases hn : n < xs.length
  · have hl : (xs.take (xs.length - n)).length = xs.length - n := by simp
    have hbuf : (rep xs cap).data_.buffer_
        = [] ++ (xs.take (xs.length - n)).map some
          ++ ((xs.drop (xs.length - n)).map some
              ++ List.replicate (cap - xs.length) none) := by
      have hm : xs.map some = (xs.take (xs.length - n)).map some
          ++ (xs.drop (xs.length - n)).map some := by
        rw [← List.map_append, List.take_append_drop]
      rw [rep_buffer_split]
      conv_lhs => rw [hm]
      simp only [List.append_assoc]
    have hd := destroy_n_live (xs.take (xs.length - n)) []
      ((xs.drop (xs.length - n)).map some ++ List.replicate (cap - xs.length) none) 0 rfl
    rw [hl] at hd
    simp only [Resize, hsz, hn, if_true, hbuf, hd, RawMemory.withBuffer]
    simp [rep]
  · have hsz2 : (rep xs (max cap n)).size_ = xs.length := rfl
    have hle : n - xs.length ≤ (rep xs (max cap n)).data_.buffer_.length := by
      simp [rep]
      omega
    simp only [Resize, hsz, hn, if_false, Reserve_rep E xs cap n h hfit, hsz2,
      uninitialized_value_construct_n_front E _ _ hle, RawMemory.withBuffer]
    simp [rep]

theorem assign_copy_rep (xs ys : List T) (cap cap2 : Nat) (h : xs.length ≤ cap) :
    assign_copy false (rep xs cap) (rep ys cap2)
      = some (rep ys (if ys.length > cap then ys.length else cap)) := by
  have hsz : (rep xs cap).size_ = xs.length := rfl
  have hsz2 : (rep ys cap2).size_ = ys.length := rfl
  have hcap : (rep xs cap).data_.Capacity = cap := rfl
  by_cases hbig : ys.length > cap
  · have hsw : Swap (rep xs cap) (rep ys ys.length) = (rep ys ys.length, rep xs cap) := rfl
    simp only [assign_copy, Bool.false_eq_true, if_false, hsz2, hcap, hbig, if_true,
      ctor_copy_rep, hsw, dtor_rep]
  · simp only [assign_copy, Bool.false_eq_true, if_false, hsz2, hcap, hbig, hsz,
      Nat.zero_add]
    by_cases hshrink : ys.length < xs.length
    · -- fewer elements than before: assign the first `ys.length`, destroy the surplus
      have hl : (xs.take ys.length).length = ys.length := by simp; omega
      have hd : (xs.drop ys.length).length = xs.length - ys.length := by simp
      have hm : xs.map some = (xs.take ys.length).map some ++ (xs.drop ys.length).map some := by
        rw [← List.map_append, List.take_append_drop]
      have hdst : (rep xs cap).data_.buffer_
          = [] ++ (xs.take ys.length).map some
            ++ ((xs.drop ys.length).map some ++ List.replicate (cap - xs.length) none) := by
        rw [rep_buffer_split]
        conv_lhs => rw [hm]
        simp only [List.append_assoc]
      have hc := copy_n_live ys (xs.take ys.length) [] (List.replicate (cap2 - ys.length) none)
        0 [] ((xs.drop ys.length).map some ++ List.replicate (cap - xs.length) none) 0 rfl rfl
        hl
      have hdn := destroy_n_live (xs.drop ys.length) (ys.map some)
        (List.replicate (cap - xs.length) none) ys.length (by simp)
      rw [hd] at hdn
      simp only [hshrink, if_true]
      rw [hdst, rep_buffer_split, hc]
      simp only [List.nil_append, List.append_assoc] at hdn ⊢
      rw [hdn]
      have hr : cap - ys.length = (xs.length - ys.length) + (cap - xs.length) := by omega
      simp only [rep, RawMemory.withBuffer]
      rw [hr, List.replicate_add]
    · -- at least as many elements as before: assign the first `xs.length`, construct the rest
      have hge : xs.length ≤ ys.length := by omega
      have hl : (ys.take xs.length).length = xs.length := by simp; omega
      have hd : (ys.drop xs.length).length = ys.length - xs.length := by simp
      have hm : ys.map some = (ys.take xs.length).map some ++ (ys.drop xs.length).map some := by
        rw [← List.map_append, List.take_append_drop]
      have hsrc : (rep ys cap2).data_.buffer_
          = [] ++ (ys.take xs.length).map some
            ++ ((ys.drop xs.length).map some ++ List.replicate (cap2 - ys.length) none) := by
        rw [rep_buffer_split]
        conv_lhs => rw [hm]
        simp only [List.append_assoc]
      have hc := copy_n_live (ys.take xs.length) xs []
        ((ys.drop xs.length).map some ++ List.replicate (cap2 - ys.length) none)
        0 [] (List.replicate (cap - xs.length) none) 0 rfl rfl hl.symm
      rw [hl] at hc
      have hr : cap - xs.length = (ys.length - xs.length) + (cap - ys.length) := by omega
      have hu := uninitialized_copy_n_fill (ys.drop xs.length) ((ys.take xs.length).map some)
        (List.replicate (cap2 - ys.length) none) xs.length
        (List.replicate (ys.length - xs.length) none) ((ys.take xs.length).map some)
        (List.replicate (cap - ys.length) none) xs.length (by rw [List.length_map, hl])
        (by rw [List.length_map, hl]) (by simp)
      rw [hd] at hu
      simp only [hshrink, if_false]
      rw [rep_buffer_split xs cap, hsrc, hc]
      simp only [List.nil_append, List.append_assoc] at hu ⊢
      rw [hr, List.replicate_add, hu]
      simp only [rep, RawMemory.withBuffer, ← List.append_assoc, ← hm]

/-! ### The size/capacity invariant, operation by operation -/

theorem SizeLeCapacity_iff (v : Vector T) : v.SizeLeCapacity ↔ v.size_ ≤ v.data_.capacity_ := by
  simp [SizeLeCapacity, Size, Capacity, RawMemory.Capacity]

theorem ctor_copy_le (v w : Vector T) (hw : ctor_copy v = some w) :
    w.size_ ≤ w.data_.capacity_ := by
  unfold ctor_copy at hw
  simp only [RawMemory.withBuffer, RawMemory.ofCapacity] at *
  repeat' split at hw
  all_goals (cases hw; try (dsimp only; omega))

theorem assign_copy_le (b : Bool) (v rhs w : Vector T) (h : v.size_ ≤ v.data_.capacity_)
    (hw : assign_copy b v rhs = some w) : w.size_ ≤ w.data_.capacity_ := by
  unfold assign_copy at hw
  split at hw
  · cases hw
    exact h
  · split at hw
    · split at hw
      · rename_i rhs_copy hc
        have := ctor_copy_le rhs rhs_copy hc
        simp only [Swap, RawMemory.Swap] at hw
        split at hw
        all_goals (cases hw; try (dsimp only at *; omega))
      · cases hw
    · simp only [RawMemory.Capacity, RawMemory.withBuffer] at *
      repeat' split at hw
      all_goals (cases hw; try (dsimp only at *; omega))

theorem Reserve_le (E : ElemType T) (v w : Vector T) (n : Nat)
    (h : v.size_ ≤ v.data_.capacity_) (hw : Reserve E v n = some w) :
    w.size_ ≤ w.data_.capacity_ ∧ w.size_ = v.size_ ∧ n ≤ w.data_.capacity_ := by
  unfold Reserve at hw
  simp only [RawMemory.Capacity, RawMemory.Swap, RawMemory.withBuffer,
    RawMemory.ofCapacity_size_t] at *
  repeat' split at hw
  all_goals (cases hw; try (dsimp only at *; omega))
  exact ⟨h, rfl, by assumption⟩

theorem ctor_size_le (E : ElemType T) (n : Nat) (w : Vector T) (hw : ctor_size E n = some w) :
    w.size_ ≤ w.data_.capacity_ := by
  unfold ctor_size at hw
  simp only [RawMemory.withBuffer, RawMemory.ofCapacity_size_t] at *
  repeat' split at hw
  all_goals (cases hw; try (dsimp only; omega))

theorem Resize_le (E : ElemType T) (v w : Vector T) (n : Nat)
    (h : v.size_ ≤ v.data_.capacity_) (hw : Resize E v n = some w) :
    w.size_ ≤ w.data_.capacity_ := by
  unfold Resize at hw
  split at hw
  · simp only [RawMemory.withBuffer] at hw
    split at hw
    all_goals (cases hw; try (dsimp only at *; omega))
  · split at hw
    · rename_i v1 hv1
      have := Reserve_le E v v1 n h hv1
      simp only [RawMemory.withBuffer] at hw
      split at hw
      all_goals (cases hw; try (dsimp only at *; omega))
    · cases hw

theorem PushBack_le (E : ElemType T) (v w : Vector T) (x : T)
    (h : v.size_ ≤ v.data_.capacity_) (hw : PushBack E v x = some w) :
    w.size_ ≤ w.data_.capacity_ := by
  unfold PushBack at hw
  simp only [Capacity, RawMemory.Capacity, RawMemory.Swap, RawMemory.withBuffer,
    RawMemory.ofCapacity] at *
  repeat' split at hw
  all_goals (cases hw; try (dsimp only; omega))

theorem Emplace_le (E : ElemType T) (v w : Vector T) (pos it : Nat) (x : T)
    (h : v.size_ ≤ v.data_.capacity_) (hw : Emplace E v pos x = some (w, it)) :
    w.size_ ≤ w.data_.capacity_ := by
  unfold Emplace EmplaceBack EmplaceWithReallocate EmplaceWithoutReallocate at hw
  simp only [Capacity, RawMemory.Capacity, RawMemory.Swap, RawMemory.withBuffer,
    RawMemory.ofCapacity] at *
  repeat' split at hw
  all_goals (cases hw; try (dsimp only; omega))

theorem EmplaceBack_le (E : ElemType T) (v w : Vector T) (it : Nat) (x : T)
    (h : v.size_ ≤ v.data_.capacity_) (hw : EmplaceBack E v x = some (w, it)) :
    w.size_ ≤ w.data_.capacity_ := by
  unfold EmplaceBack at hw
  simp only [Capacity, RawMemory.Capacity, RawMemory.Swap, RawMemory.withBuffer,
    RawMemory.ofCapacity] at *
  repeat' split at hw
  all_goals (cases hw; try (dsimp only; omega))

theorem PushBack_move_le (E : ElemType T) (v w : Vector T) (x : T)
    (h : v.size_ ≤ v.data_.capacity_) (hw : PushBack_move E v x = some w) :
    w.size_ ≤ w.data_.capacity_ := by
  unfold PushBack_move at hw
  split at hw
  · rename_i r hr
    cases hw
    exact EmplaceBack_le E v r.1 r.2 x h hr
  · cases hw

theorem PopBack_le (v w : Vector T) (h : v.size_ ≤ v.data_.capacity_)
    (hw : PopBack v = some w) : w.size_ ≤ w.data_.capacity_ := by
  unfold PopBack at hw
  simp only [RawMemory.withBuffer] at *
  repeat' split at hw
  all_goals (cases hw; try (dsimp only; omega))

theorem Erase_le (E : ElemType T) (v w : Vector T) (pos it : Nat)
    (h : v.size_ ≤ v.data_.capacity_) (hw : Erase E v pos = some (w, it)) :
    w.size_ ≤ w.data_.capacity_ := by
  unfold Erase at hw
  simp only [RawMemory.withBuffer] at *
  repeat' split at hw
  all_goals (cases hw; try (dsimp only; omega))

/-! ### The doubling policy -/

theorem appendCall_rep (E : ElemType T) (xs : List T) (cap : Nat) (c : AppendCall) (x : T)
    (h : xs.length ≤ cap) :
    appendCall E (rep xs cap) c x
      = some (rep (xs ++ [x]) (if xs.length = cap then grown xs.length else cap)) := by
  cases c
  · exact PushBack_rep E xs cap x h
  · simp [appendCall, PushBack_move, EmplaceBack_rep E xs cap x h]
  · simp [appendCall, EmplaceBack_rep E xs cap x h]

theorem Grown_step (len cap k : Nat) (hle : len ≤ cap) (h : Grown len cap k) :
    Grown (len + 1) (if len = cap then grown len else cap)
      (if (if len = cap then grown len else cap) = cap then k else k + 1) ∧
    len + 1 ≤ (if len = cap then grown len else cap) := by
  rcases h with ⟨h0, hc, hk⟩ | ⟨e, hc, hl, hu, hk⟩
  · subst h0 hc hk
    refine ⟨Or.inr ⟨0, ?_⟩, ?_⟩ <;> simp [grown]
  · have hp : 0 < 2 ^ e := Nat.pow_pos (by decide)
    by_cases hfull : len = cap
    · have hne : ¬ len = 0 := by omega
      have hg : grown len = 2 ^ (e + 1) := by
        simp only [grown, hne, if_false, pow_succ]
        omega
      have hne2 : ¬ 2 ^ (e + 1) = cap := by
        rw [pow_succ]
        omega
      rw [if_pos hfull, hg, if_neg hne2]
      refine ⟨Or.inr ⟨e + 1, rfl, ?_, ?_, by omega⟩, ?_⟩ <;> rw [pow_succ] <;> omega
    · rw [if_neg hfull, if_pos rfl]
      exact ⟨Or.inr ⟨e, hc, by omega, by omega, hk⟩, by omega⟩

theorem appendAll_rep (E : ElemType T) (cs : List (AppendCall × T)) (xs : List T)
    (cap k : Nat) (hle : xs.length ≤ cap) (hg : Grown xs.length cap k) :
    ∃ cap2 k2, appendAll E cs (rep xs cap) k = some (rep (xs ++ cs.map Prod.snd) cap2, k2) ∧
      Grown (xs.length + cs.length) cap2 k2 ∧ xs.length + cs.length ≤ cap2 := by
  induction cs generalizing xs cap k with
  | nil => exact ⟨cap, k, by simp [appendAll], by simpa using hg, by simpa using hle⟩
  | cons c cs ih =>
    obtain ⟨hstep, hle2⟩ := Grown_step xs.length cap k hle hg
    have hlen : (xs ++ [c.2]).length = xs.length + 1 := by simp
    obtain ⟨cap2, k2, h1, h2, h3⟩ := ih (xs ++ [c.2])
      (if xs.length = cap then grown xs.length else cap)
      (if (if xs.length = cap then grown xs.length else cap) = cap then k else k + 1)
      (by rw [hlen]; exact hle2) (by rw [hlen]; exact hstep)
    refine ⟨cap2, k2, ?_, ?_, ?_⟩
    · have hc1 : (rep (xs ++ [c.2]) (if xs.length = cap then grown xs.length else cap)).Capacity
          = (if xs.length = cap then grown xs.length else cap) := rfl
      have hc2 : (rep xs cap).Capacity = cap := rfl
      simp only [appendAll, appendCall_rep E xs cap c.1 c.2 hle, hc1, hc2]
      rw [h1]
      simp
    · rw [hlen] at h2
      rw [List.length_cons]
      rw [show xs.length + (cs.length + 1) = xs.length + 1 + cs.length by omega]
      exact h2
    · rw [hlen] at h3
      rw [List.length_cons]
      omega

theorem Grown_bounds (n cap k : Nat) (hn : 1 ≤ n) (h : Grown n cap k) :
    (∃ e, cap = 2 ^ e ∧ n ≤ 2 ^ e ∧ ∀ j, n ≤ 2 ^ j → 2 ^ e ≤ 2 ^ j) ∧
      k ≤ Nat.log 2 n + 2 := by
  rcases h with ⟨h0, _, _⟩ | ⟨e, hc, hl, hu, hk⟩
  · omega
  · refine ⟨⟨e, hc, hl, ?_⟩, ?_⟩
    · intro j hj
      have hlt : 2 ^ e < 2 ^ (j + 1) := by
        rw [pow_succ]
        omega
      have hej : e < j + 1 := (Nat.pow_lt_pow_iff_right (by decide)).mp hlt
      exact Nat.pow_le_pow_right (by decide) (by omega)
    · rcases Nat.eq_zero_or_pos e with he | he
      · omega
      · have hpe : 2 ^ (e - 1) ≤ n := by
          have : 2 ^ e = 2 ^ (e - 1) * 2 := by
            rw [← pow_succ]
            congr 1
            omega
          omega
        have := Nat.le_log_of_pow_le (by decide : 1 < 2) hpe
        omega

/-! ### Copy constructors that throw -/

/-- While no copy throws, the loop with exceptions is the loop without them. -/
theorem uninitialized_copy_n_ex_no_throw (ct : Nat → Bool) (src : Block T) (n : Nat)
    (first : Nat) (dst : Block T) (d_first current : Nat)
    (hok : ∀ j, j < n → ct (first + j) = false) :
    uninitialized_copy_n_ex ct src first dst d_first current n
      = (match uninitialized_copy_n src first dst current n with
         | some d => Copied.done d
         | none => Copied.undefined) := by
  induction n generalizing first dst current with
  | zero => simp [uninitialized_copy_n_ex, uninitialized_copy_n]
  | succ n ih =>
    have h0 : ct first = false := by simpa using hok 0 (by omega)
    have hrest : ∀ j, j < n → ct (first + 1 + j) = false := by
      intro j hj
      have := hok (j + 1) (by omega)
      rwa [show first + (j + 1) = first + 1 + j by omega] at this
    simp only [uninitialized_copy_n_ex, uninitialized_copy_n, h0]
    cases hl : load src first with
    | none => rfl
    | some x =>
      simp only [Bool.false_eq_true, if_false]
      cases hc : construct_at dst current x with
      | none => rfl
      | some d1 => exact ih (first + 1) d1 (current + 1) hrest

/-- A type that is relocated by copy: while no copy throws, `SafeOp` with exceptions is
`SafeOp` without them. -/
theorem SafeOp_ex_no_throw (ct : Nat → Bool) (E : ElemType T)
    (src : Block T) (from_ size : Nat) (dst : Block T) (to_ : Nat)
    (hok : ∀ j, j < size → ct (from_ + j) = false) :
    SafeOp_ex ct E src from_ size dst to_
      = (match SafeOp E src from_ size dst to_ with
         | some r => Relocated.done r.1 r.2
         | none => Relocated.undefined) := by
  by_cases hcond : (E.is_nothrow_move_constructible || !E.is_copy_constructible) = true
  · simp only [SafeOp_ex, SafeOp, hcond, if_true]
    cases hm : uninitialized_move_n E src from_ dst to_ size with
    | none => rfl
    | some r =>
      obtain ⟨s1, d1⟩ := r
      cases hd : destroy_n s1 from_ size <;> simp [hd]
  · simp only [SafeOp_ex, SafeOp, hcond, if_false,
      uninitialized_copy_n_ex_no_throw ct src size from_ dst to_ to_ hok]
    cases hc : uninitialized_copy_n src from_ dst to_ size with
    | none => rfl
    | some d1 => cases hd : destroy_n src from_ size <;> simp [hd]

/-- While no copy throws and the new element is constructed, `EmplaceBack` with exceptions is
`EmplaceBack` without them. -/
theorem EmplaceBack_ex_no_throw (ct : Nat → Bool) (E : ElemType T) (v : Vector T) (x : T)
    (hok : ∀ j, ct j = false) :
    EmplaceBack_ex ct E v (some x)
      = (match EmplaceBack E v x with
         | some r => Outcome.returned r
         | none => Outcome.undefined) := by
  unfold EmplaceBack_ex EmplaceBack
  split
  · simp only
    cases hc : construct_at
        (RawMemory.ofCapacity (if v.size_ = 0 then 1 else v.size_ * 2)).buffer_ v.size_ x with
    | none => rfl
    | some nb0 =>
      simp only [SafeOp_ex_no_throw ct E _ _ _ _ _ (fun j _ => hok _)]
      cases hs : SafeOp E v.data_.buffer_ 0 v.size_ nb0 0 with
      | none => rfl
      | some r =>
        obtain ⟨ob, nb⟩ := r
        rfl
  · simp only
    cases hc : construct_at v.data_.buffer_ v.size_ x <;> rfl

/-- While no copy throws and the new element is constructed, `EmplaceWithReallocate` with
exceptions is `EmplaceWithReallocate` without them. -/
theorem EmplaceWithReallocate_ex_no_throw (ct : Nat → Bool) (E : ElemType T) (v : Vector T)
    (pos : Nat) (x : T) (hok : ∀ j, ct j = false) :
    EmplaceWithReallocate_ex ct E v pos (some x)
      = (match EmplaceWithReallocate E v pos x with
         | some r => Outcome.returned r
         | none => Outcome.undefined) := by
  unfold EmplaceWithReallocate_ex EmplaceWithReallocate
  simp only
  cases hc : construct_at
      (RawMemory.ofCapacity (if v.size_ = 0 then 1 else v.size_ * 2)).buffer_
      (pos - v.cbegin) x with
  | none => rfl
  | some nb0 =>
    simp only [SafeOp_ex_no_throw ct E _ _ _ _ _ (fun j _ => hok _)]
    cases hs : SafeOp E v.data_.buffer_ 0 (pos - v.cbegin) nb0 0 with
    | none => rfl
    | some r =>
      obtain ⟨ob1, nb1⟩ := r
      simp only
      cases hs2 : SafeOp E ob1 (0 + (pos - v.cbegin)) (v.size_ - (pos - v.cbegin)) nb1
          (0 + (pos - v.cbegin + 1)) with
      | none => rfl
      | some r2 =>
        obtain ⟨ob2, nb2⟩ := r2
        rfl

end Vector

/-! ### The states of a well-formed optional -/

namespace Optional

variable {T : Type}

theorem Inv_occupied {o : Optional T} (h : o.Inv) (hi : o.is_initialized_ = true) :
    ∃ x, o = { data_ := some x, is_initialized_ := true, ptr_value_ := Ptr.data,
               overwritten := [] } := by
  obtain ⟨d, i, p, w⟩ := o
  obtain ⟨h1, _, h3⟩ := h
  simp only at hi h1 h3
  obtain ⟨hp, hd⟩ := h1 hi
  cases d with
  | none => simp at hd
  | some x => exact ⟨x, by simp [hi, hp, h3]⟩

theorem Inv_empty {o : Optional T} (h : o.Inv) (hi : o.is_initialized_ = false) :
    ∃ p, o = { data_ := none, is_initialized_ := false, ptr_value_ := p,
               overwritten := [] } := by
  obtain ⟨d, i, p, w⟩ := o
  obtain ⟨_, h2, h3⟩ := h
  simp only at hi h2 h3
  exact ⟨p, by simp [hi, h2 hi, h3]⟩

end Optional

namespace Vector

variable {T : Type}

/-! ## The claims -/

/-- C1: on every vector that satisfies the data-model invariant (so `size ≤ capacity`) and for
every position `pos` with `0 ≤ pos ≤ size` and every value `x`, `Emplace(pos, x)` and
`Insert(pos, x)` succeed, the resulting elements are `old[0..pos) ++ [x] ++ old[pos..size)`, the
size grows by exactly 1 and the returned iterator is `pos`.  The result is the one of the
path taken: `EmplaceBack` for `pos = end`, `EmplaceWithReallocate` for an internal position
of a full vector, `EmplaceWithoutReallocate` for an internal position otherwise. -/
theorem C1_Emplace_inserts_at_pos (E : ElemType T) (v : Vector T) (pos : Nat) (x : T)
    (hv : v.Inv) (hp : pos ≤ v.size_) :
    ∃ w, Emplace E v pos x = some (w, pos) ∧ Insert E v pos x = some (w, pos) ∧ w.Inv ∧
      w.toList = v.toList.take pos ++ [x] ++ v.toList.drop pos ∧
      w.size_ = v.size_ + 1 ∧
      (pos = v.size_ → EmplaceBack E v x = some (w, pos)) ∧
      (pos < v.size_ → v.size_ = v.Capacity → EmplaceWithReallocate E v pos x = some (w, pos)) ∧
      (pos < v.size_ → v.size_ < v.Capacity →
        EmplaceWithoutReallocate E v pos x = some (w, pos)) := by
  obtain ⟨xs, cap, rfl, hle⟩ := hv.exists_rep
  have hsz : (rep xs cap).size_ = xs.length := rfl
  have hcap : (rep xs cap).Capacity = cap := rfl
  rw [hsz] at hp
  have hE := Emplace_rep E xs cap pos x hle hp
  refine ⟨_, hE, hE, Inv_rep _ _ (length_insert_le xs cap pos x hle hp), ?_, ?_, ?_, ?_, ?_⟩
  · simp [toList_rep]
  · simp [rep]
    omega
  · intro he
    have hr : (rep xs cap).cbegin ≤ pos ∧ pos ≤ (rep xs cap).cend := by
      simp only [cbegin, cend, hsz]; omega
    have hce : pos = (rep xs cap).cend := by simp only [cend, hsz]; omega
    rw [← hE]
    unfold Emplace
    rw [if_pos hr, if_pos hce]
  · intro hlt hfull
    have hr : (rep xs cap).cbegin ≤ pos ∧ pos ≤ (rep xs cap).cend := by
      simp only [cbegin, cend, hsz]; omega
    have hce : ¬ pos = (rep xs cap).cend := by simp only [cend, hsz]; omega
    rw [← hE]
    unfold Emplace
    rw [if_pos hr, if_neg hce, if_pos hfull]
  · intro hlt hroom
    have hr : (rep xs cap).cbegin ≤ pos ∧ pos ≤ (rep xs cap).cend := by
      simp only [cbegin, cend, hsz]; omega
    have hce : ¬ pos = (rep xs cap).cend := by simp only [cend, hsz]; omega
    have hnf : ¬ (rep xs cap).size_ = (rep xs cap).Capacity := by omega
    rw [← hE]
    unfold Emplace
    rw [if_pos hr, if_neg hce, if_neg hnf]

/-- C1 at the scenario of the specification: `Insert(begin + 1, 99)` on `[1, 2, 3]`. -/
theorem C1_Emplace_inserts_at_pos_witness :
    ∃ w, Insert intElem (rep [1, 2, 3] 4) 1 99 = some (w, 1) ∧ w.toList = [1, 99, 2, 3] ∧
      w.size_ = 4 := by
  obtain ⟨w, _, h1, _, h2, h3, _⟩ :=
    C1_Emplace_inserts_at_pos intElem (rep [1, 2, 3] 4) 1 99 (by decide) (by decide)
  exact ⟨w, h1, h2, h3⟩

/-- C2: on every vector that satisfies the data-model invariant and for every position `pos`
with `0 ≤ pos < size` (so the vector is not empty), `Erase(pos)` succeeds, the resulting
elements are `old[0..pos) ++ old[pos+1..size)`, the size shrinks by exactly 1, the capacity
is unchanged and the returned iterator is `pos`. -/
theorem C2_Erase_removes_at_pos (E : ElemType T) (v : Vector T) (pos : Nat)
    (hv : v.Inv) (hp : pos < v.size_) :
    ∃ w, Erase E v pos = some (w, pos) ∧ w.Inv ∧
      w.toList = v.toList.take pos ++ v.toList.drop (pos + 1) ∧
      w.size_ + 1 = v.size_ ∧ w.Capacity = v.Capacity := by
  obtain ⟨xs, cap, rfl, hle⟩ := hv.exists_rep
  have hsz : (rep xs cap).size_ = xs.length := rfl
  rw [hsz] at hp
  have hlen : (xs.take pos ++ xs.drop (pos + 1)).length + 1 = xs.length := by
    simp
    omega
  refine ⟨_, Erase_rep_at E xs cap pos hle hp, Inv_rep _ _ (by omega), ?_, ?_, rfl⟩
  · simp [toList_rep]
  · exact hlen

/-- C2 at the scenario of the specification: `Erase(begin + 1)` on `[1, 99, 2, 3]`. -/
theorem C2_Erase_removes_at_pos_witness :
    ∃ w, Erase intElem (rep [1, 99, 2, 3] 4) 1 = some (w, 1) ∧ w.toList = [1, 2, 3] ∧
      w.Capacity = 4 := by
  obtain ⟨w, h1, _, h2, _, h3⟩ :=
    C2_Erase_removes_at_pos intElem (rep [1, 99, 2, 3] 4) 1 (by decide) (by decide)
  exact ⟨w, h1, h2, h3⟩

/-- C3: on every vector that satisfies the data-model invariant, for every position `pos`
in `[0, size]` and every value `x`, `Insert(pos, x)` succeeds and `Erase` at the iterator it
returned succeeds and restores the original elements in the original order and the original
size; the capacity is the original one or the grown one. -/
theorem C3_Insert_Erase_round_trip (E : ElemType T) (v : Vector T) (pos : Nat) (x : T)
    (hv : v.Inv) (hp : pos ≤ v.size_) :
    ∃ w it u, Insert E v pos x = some (w, it) ∧ Erase E w it = some (u, it) ∧ u.Inv ∧
      u.toList = v.toList ∧ u.size_ = v.size_ ∧ v.Capacity ≤ u.Capacity := by
  obtain ⟨xs, cap, rfl, hle⟩ := hv.exists_rep
  have hsz : (rep xs cap).size_ = xs.length := rfl
  rw [hsz] at hp
  have hl : (xs.take pos).length = pos := by simp; omega
  have hins := length_insert_le xs cap pos x hle hp
  have hI := Emplace_rep E xs cap pos x hle hp
  have hEr := Erase_rep E (xs.take pos) (xs.drop pos) x
    (if xs.length = cap then grown xs.length else cap) hins
  rw [hl, List.take_append_drop] at hEr
  have hg := lt_grown xs.length
  refine ⟨_, pos, _, hI, hEr, Inv_rep _ _ ?_, ?_, rfl, ?_⟩
  · split <;> omega
  · rw [toList_rep, toList_rep]
  · show cap ≤ (if xs.length = cap then grown xs.length else cap)
    split <;> omega

/-- C3 at the scenario of the specification: `[1, 2, 3]`, insert 99 at position 1, erase. -/
theorem C3_Insert_Erase_round_trip_witness :
    ∃ w it u, Insert intElem (rep [1, 2, 3] 3) 1 99 = some (w, it) ∧
      Erase intElem w it = some (u, it) ∧ u.toList = [1, 2, 3] ∧ u.size_ = 3 := by
  obtain ⟨w, it, u, h1, h2, _, h3, h4, _⟩ :=
    C3_Insert_Erase_round_trip intElem (rep [1, 2, 3] 3) 1 99 (by decide) (by decide)
  exact ⟨w, it, u, h1, h2, h3, h4⟩

/-- C4: the size/capacity invariant `0 ≤ size ≤ capacity`.  It holds for the default
constructed vector and for every vector that `Vector(n)` returns.  Every public operation
(copy and move construction, copy and move assignment, `Swap`, `Reserve`, `Resize`,
`PushBack`, `EmplaceBack`, `PopBack`, `Emplace`, `Insert`, `Erase`) carries it from its
operands to every result it returns.  Called within its preconditions on vectors that satisfy
the data-model invariant, every operation does return a result; for `Vector(n)`, `Reserve(n)`
and `Resize(n)` the preconditions include that the byte size `n * sizeof(T)` of the block
asked for fits in `size_t` (or, for `Reserve` and `Resize`, that `n ≤ capacity`, when no
block is allocated). -/
theorem C4_size_le_capacity_invariant (E : ElemType T) (v other : Vector T) (n pos : Nat)
    (x : T) :
    (ctor_default : Vector T).SizeLeCapacity ∧
    (∀ w, ctor_size E n = some w → w.SizeLeCapacity) ∧
    (n * E.sizeof_T < 2 ^ 64 → ∃ w, ctor_size E n = some w ∧ w.SizeLeCapacity) ∧
    (v.SizeLeCapacity → other.SizeLeCapacity →
      (∀ w, ctor_copy v = some w → w.SizeLeCapacity) ∧
      ((ctor_move v).1.SizeLeCapacity ∧ (ctor_move v).2.SizeLeCapacity) ∧
      (∀ b w, assign_copy b v other = some w → w.SizeLeCapacity) ∧
      ((assign_move v other).1.SizeLeCapacity ∧ (assign_move v other).2.SizeLeCapacity) ∧
      ((Swap v other).1.SizeLeCapacity ∧ (Swap v other).2.SizeLeCapacity) ∧
      (∀ w, Reserve E v n = some w → w.SizeLeCapacity) ∧
      (∀ w, Resize E v n = some w → w.SizeLeCapacity) ∧
      (∀ w, PushBack E v x = some w → w.SizeLeCapacity) ∧
      (∀ w, PushBack_move E v x = some w → w.SizeLeCapacity) ∧
      (∀ w it, EmplaceBack E v x = some (w, it) → w.SizeLeCapacity) ∧
      (∀ w, PopBack v = some w → w.SizeLeCapacity) ∧
      (∀ w it, Emplace E v pos x = some (w, it) → w.SizeLeCapacity) ∧
      (∀ w it, Insert E v pos x = some (w, it) → w.SizeLeCapacity) ∧
      (∀ w it, Erase E v pos = some (w, it) → w.SizeLeCapacity)) ∧
    (v.Inv → other.Inv →
      (ctor_copy v).isSome ∧
      (∀ b, (assign_copy b v other).isSome) ∧
      (n ≤ v.Capacity ∨ n * E.sizeof_T < 2 ^ 64 → (Reserve E v n).isSome) ∧
      (n ≤ v.Capacity ∨ n * E.sizeof_T < 2 ^ 64 → (Resize E v n).isSome) ∧
      (PushBack E v x).isSome ∧
      (PushBack_move E v x).isSome ∧
      (EmplaceBack E v x).isSome ∧
      (0 < v.size_ → (PopBack v).isSome) ∧
      (pos ≤ v.size_ → (Emplace E v pos x).isSome ∧ (Insert E v pos x).isSome) ∧
      (pos < v.size_ → (Erase E v pos).isSome)) := by
  refine ⟨by simp [ctor_default, SizeLeCapacity, Size, Capacity, RawMemory.Capacity],
    fun w hw => (SizeLeCapacity_iff w).mpr (ctor_size_le E n w hw),
    fun hfit => ⟨_, ctor_size_eq E n hfit,
      by simp [SizeLeCapacity, Size, Capacity, RawMemory.Capacity, rep]⟩,
    ?_, ?_⟩
  · intro hv ho
    rw [SizeLeCapacity_iff] at hv ho
    simp only [SizeLeCapacity_iff]
    refine ⟨fun w hw => ctor_copy_le v w hw, ⟨hv, Nat.zero_le _⟩,
      fun b w hw => assign_copy_le b v other w hv hw, ⟨ho, hv⟩, ⟨ho, hv⟩,
      fun w hw => (Reserve_le E v w n hv hw).1, fun w hw => Resize_le E v w n hv hw,
      fun w hw => PushBack_le E v w x hv hw, fun w hw => PushBack_move_le E v w x hv hw,
      fun w it hw => EmplaceBack_le E v w it x hv hw, fun w hw => PopBack_le v w hv hw,
      fun w it hw => Emplace_le E v w pos it x hv hw,
      fun w it hw => Emplace_le E v w pos it x hv hw,
      fun w it hw => Erase_le E v w pos it hv hw⟩
  · intro hv ho
    obtain ⟨xs, cap, rfl, hle⟩ := hv.exists_rep
    obtain ⟨ys, cap2, rfl, hle2⟩ := ho.exists_rep
    have hsz : (rep xs cap).size_ = xs.length := rfl
    have hcap : (rep xs cap).Capacity = cap := rfl
    refine ⟨by simp [ctor_copy_rep], ?_,
      fun hfit => by simp [Reserve_rep E xs cap n hle (hcap ▸ hfit)],
      fun hfit => by simp [Resize_rep E xs cap n hle (hcap ▸ hfit)],
      by simp [PushBack_rep E xs cap x hle],
      by simp [PushBack_move, EmplaceBack_rep E xs cap x hle],
      by simp [EmplaceBack_rep E xs cap x hle], ?_, ?_, ?_⟩
    · intro b
      cases b
      · simp [assign_copy_rep xs ys cap cap2 hle]
      · simp [assign_copy]
    · intro hpos
      rw [hsz] at hpos
      have hne : xs ≠ [] := by
        intro hnil
        simp [hnil] at hpos
      have hx := List.dropLast_append_getLast hne
      have := PopBack_rep xs.dropLast (xs.getLast hne) cap (by rw [hx]; exact hle)
      rw [hx] at this
      simp [this]
    · intro hp
      rw [hsz] at hp
      simp [Insert, Emplace_rep E xs cap pos x hle hp]
    · intro hp
      rw [hsz] at hp
      simp [Erase_rep_at E xs cap pos hle hp]

/-- C4 on `[1, 2, 3]` in a block of 3 slots of `int`: `Vector(5)`, `Reserve(5)`, `Resize(5)`
and `PushBack(4)` return a vector with `size ≤ capacity`. -/
theorem C4_size_le_capacity_invariant_witness :
    (∃ w, ctor_size intElem 5 = some w ∧ w.SizeLeCapacity) ∧
    (∀ w, Reserve intElem (rep [1, 2, 3] 3) 5 = some w → w.SizeLeCapacity) ∧
    (Reserve intElem (rep [1, 2, 3] 3) 5).isSome ∧
    (∀ w, Resize intElem (rep [1, 2, 3] 3) 5 = some w → w.SizeLeCapacity) ∧
    (Resize intElem (rep [1, 2, 3] 3) 5).isSome ∧
    (∀ w, PushBack intElem (rep [1, 2, 3] 3) 4 = some w → w.SizeLeCapacity) ∧
    (PushBack intElem (rep [1, 2, 3] 3) 4).isSome := by
  have h := C4_size_le_capacity_invariant intElem (rep [1, 2, 3] 3) (rep [7] 2) 5 1 4
  obtain ⟨_, _, hC, hA, hB⟩ := h
  have hA := hA (by decide) (by decide)
  have hB := hB (by decide) (by decide)
  have hfit : 5 * intElem.sizeof_T < 2 ^ 64 := by decide
  exact ⟨hC hfit, hA.2.2.2.2.2.1, hB.2.2.1 (Or.inr hfit), hA.2.2.2.2.2.2.1,
    hB.2.2.2.1 (Or.inr hfit), hA.2.2.2.2.2.2.2.1, hB.2.2.2.2.1⟩

/-- C5: on every vector that satisfies the data-model invariant (so `size ≤ capacity`) and for
every value `x`, `PushBack(x)` (by copy and by move) and `EmplaceBack(x)` succeed and give the
same vector: its elements are `old ++ [x]`, its size is the old size plus 1, every previous
element is unchanged at its index, the capacity is exactly `max(1, 2 * old capacity)` when the
vector was full and is unchanged when it was not.  `EmplaceBack` returns a reference to the
last slot. -/
theorem C5_PushBack_appends (E : ElemType T) (v : Vector T) (x : T) (hv : v.Inv) :
    ∃ w, PushBack E v x = some w ∧ PushBack_move E v x = some w ∧
      EmplaceBack E v x = some (w, v.size_) ∧ w.Inv ∧
      w.toList = v.toList ++ [x] ∧ w.size_ = v.size_ + 1 ∧
      (∀ i, i < v.size_ → w.toList[i]? = v.toList[i]?) ∧
      (v.size_ = v.Capacity → w.Capacity = max 1 (2 * v.Capacity)) ∧
      (v.size_ < v.Capacity → w.Capacity = v.Capacity) := by
  obtain ⟨xs, cap, rfl, hle⟩ := hv.exists_rep
  have hsz : (rep xs cap).size_ = xs.length := rfl
  have hcap : (rep xs cap).Capacity = cap := rfl
  have hg := lt_grown xs.length
  have hE := EmplaceBack_rep E xs cap x hle
  refine ⟨_, PushBack_rep E xs cap x hle, by simp [PushBack_move, hE], hE,
    Inv_rep _ _ ?_, ?_, ?_, ?_, ?_, ?_⟩
  · simp only [List.length_append, List.length_singleton]
    split <;> omega
  · rw [toList_rep, toList_rep]
  · simp [rep]
  · intro i hi
    rw [hsz] at hi
    rw [toList_rep, toList_rep, List.getElem?_append_left hi]
  · intro hfull
    rw [hsz, hcap] at hfull
    rw [hcap]
    show (if xs.length = cap then grown xs.length else cap) = max 1 (2 * cap)
    rw [if_pos hfull, hfull]
    unfold grown
    split <;> omega
  · intro hroom
    rw [hsz, hcap] at hroom
    show (if xs.length = cap then grown xs.length else cap) = cap
    rw [if_neg (by omega)]

/-- C5 at the scenario of the specification: the third append, to `[1, 2]` in a full block of
2 slots. -/
theorem C5_PushBack_appends_witness :
    ∃ w, PushBack intElem (rep [1, 2] 2) 3 = some w ∧ w.toList = [1, 2, 3] ∧ w.size_ = 3 ∧
      w.Capacity = 4 := by
  obtain ⟨w, h1, _, _, _, h2, h3, _, h4, _⟩ :=
    C5_PushBack_appends intElem (rep [1, 2] 2) 3 (by decide)
  exact ⟨w, h1, h2, h3, h4 (by decide)⟩

/-- C6: for every `N ≥ 1` and every sequence of `N` append calls (`PushBack` by copy or by
move, `EmplaceBack`) on a default-constructed vector, all calls succeed, the size is `N`, the
elements are the appended values in order, the capacity is the smallest power of two that is
at least `N` (so the capacity is at least `N`), and the number of calls that changed the
capacity is at most `floor(log2 N) + 2`. -/
theorem C6_append_growth_law (E : ElemType T) (cs : List (AppendCall × T))
    (hN : 1 ≤ cs.length) :
    ∃ w k, appendAll E cs ctor_default 0 = some (w, k) ∧ w.Inv ∧ w.size_ = cs.length ∧
      w.toList = cs.map Prod.snd ∧
      (∃ e, w.Capacity = 2 ^ e ∧ cs.length ≤ 2 ^ e ∧ ∀ j, cs.length ≤ 2 ^ j → 2 ^ e ≤ 2 ^ j) ∧
      cs.length ≤ w.Capacity ∧
      k ≤ Nat.log 2 cs.length + 2 := by
  have h0 : (ctor_default : Vector T) = rep [] 0 := rfl
  obtain ⟨cap, k, h1, h2, h3⟩ := appendAll_rep E cs [] 0 0 (by simp) (Or.inl ⟨rfl, rfl, rfl⟩)
  simp only [List.length_nil, Nat.zero_add, List.nil_append] at h1 h2 h3
  obtain ⟨hpow, hk⟩ := Grown_bounds cs.length cap k hN h2
  refine ⟨_, k, by rw [h0]; exact h1, Inv_rep _ _ (by simpa using h3), by simp [rep],
    toList_rep _ _, hpow, h3, hk⟩

/-- C6 at the scenario of the specification: three appends to an empty vector give
`[1, 2, 3]`, size 3 and capacity exactly 4 (0 → 1 → 2 → 4). -/
theorem C6_append_growth_law_witness :
    ∃ w k, appendAll intElem [(AppendCall.PushBack_copy, 1), (AppendCall.PushBack_move, 2),
        (AppendCall.EmplaceBack, 3)] ctor_default 0 = some (w, k) ∧
      w.toList = [1, 2, 3] ∧ w.size_ = 3 ∧ w.Capacity = 4 ∧ k ≤ 3 := by
  obtain ⟨w, k, h1, _, h2, h3, ⟨e, he, hle, hmin⟩, _, hk⟩ :=
    C6_append_growth_law intElem [(AppendCall.PushBack_copy, 1), (AppendCall.PushBack_move, 2),
      (AppendCall.EmplaceBack, 3)] (by decide)
  refine ⟨w, k, h1, h3, h2, ?_, ?_⟩
  · have h4 := hmin 2 (by decide)
    have h5 : 2 ^ e ≤ 4 := h4
    have h6 : 3 ≤ 2 ^ e := hle
    have hlt : 2 ^ e < 2 ^ 3 := by omega
    have he3 : e < 3 := (Nat.pow_lt_pow_iff_right (by decide)).mp hlt
    rw [he]
    interval_cases e <;> simp at h6 ⊢
  · have hlog : Nat.log 2 3 = 1 := by
      rw [Nat.log_eq_iff (by decide)]
      decide
    have hk2 : k ≤ Nat.log 2 3 + 2 := hk
    omega

/-- C7 fails on the code: `Resize(1)` on the strings `["a", "b", "c"]` destroys the objects in
the leading slots 0 and 1 instead of the trailing slots 1 and 2.  Afterwards `size` is 1 and the
capacity is 3, but slot 0 holds no live object and slot 2 still holds the live `"c"`. -/
theorem C7_Resize_shrink_destroys_leading_slots :
    Resize strElem (rep ["a", "b", "c"] 3) 1
      = some { data_ := { buffer_ := [none, none, some "c"], capacity_ := 3 }, size_ := 1 } ∧
    Resize strElem (rep ["a", "b", "c"] 3) 1 ≠ some (rep ["a"] 3) := by
  have h : Resize strElem (rep ["a", "b", "c"] 3) 1
      = some { data_ := { buffer_ := [none, none, some "c"], capacity_ := 3 }, size_ := 1 } :=
    rfl
  refine ⟨h, ?_⟩
  rw [h]
  simp [rep]

/-- C8 fails on the code: `Resize(3)` on the strings `["a", "b"]` in a block of 2 slots
reserves 3 slots and then value-constructs the one new element in slot 0 instead of slot 2.
Afterwards `size` is 3 and the capacity is 3, but slot 0 holds `""` in place of `"a"` and
slot 2 holds no live object. -/
theorem C8_Resize_grow_constructs_in_leading_slots :
    Resize strElem (rep ["a", "b"] 2) 3
      = some { data_ := { buffer_ := [some "", some "b", none], capacity_ := 3 }, size_ := 3 } ∧
    Resize strElem (rep ["a", "b"] 2) 3 ≠ some (rep ["a", "b", ""] 3) := by
  have h : Resize strElem (rep ["a", "b"] 2) 3
      = some { data_ := { buffer_ := [some "", some "b", none], capacity_ := 3 }, size_ := 3 } :=
    rfl
  refine ⟨h, ?_⟩
  rw [h]
  simp [rep]

/-- C9 fails on the code for a count whose byte size wraps around: for `int` (4 bytes) and
`n = 2^62 + 1` the product `n * sizeof(T)` is 4 in `size_t`, so the new block has room for one
element.  `Reserve(2^62 + 1)` on `[1, 2, 3]` relocates three elements into it, which is
undefined behaviour and gives no vector with capacity `n` and the elements kept; on a default
constructed vector it returns with `capacity_ = 2^62 + 1` over a block of one slot. -/
theorem C9_Reserve_count_wraps :
    Reserve intElem (rep [1, 2, 3] 3) (2 ^ 62 + 1) = none ∧
    (¬ ∃ w, Reserve intElem (rep [1, 2, 3] 3) (2 ^ 62 + 1) = some w ∧ w.size_ = 3 ∧
      w.toList = [1, 2, 3] ∧ w.Capacity = 2 ^ 62 + 1) ∧
    Reserve intElem ctor_default (2 ^ 62 + 1)
      = some { data_ := { buffer_ := [none], capacity_ := 2 ^ 62 + 1 }, size_ := 0 } := by
  have h : Reserve intElem (rep [1, 2, 3] 3) (2 ^ 62 + 1) = none := by decide
  refine ⟨h, ?_, by decide⟩
  rintro ⟨w, hw, _⟩
  rw [h] at hw
  cases hw

/-- C9 as amended: `Reserve(n)` with `n ≤ capacity` returns the vector as it is.  On every
vector that satisfies the data-model invariant and for every `n` that is at most the capacity
or whose byte size `n * sizeof(T)` fits in `size_t`, `Reserve(n)` succeeds, the size and the
elements with their order are unchanged, the capacity afterwards is `max(old capacity, n)`,
which is exactly `n` when `n` exceeds the old capacity, and a second `Reserve(n)` changes
nothing. -/
theorem C9_Reserve_capacity (E : ElemType T) (v : Vector T) (n : Nat) :
    (n ≤ v.Capacity → Reserve E v n = some v) ∧
    (v.Inv → n ≤ v.Capacity ∨ n * E.sizeof_T < 2 ^ 64 →
      ∃ w, Reserve E v n = some w ∧ w.Inv ∧ w.size_ = v.size_ ∧
        w.toList = v.toList ∧ w.Capacity = max v.Capacity n ∧
        (v.Capacity < n → w.Capacity = n) ∧ Reserve E w n = some w) := by
  constructor
  · intro hn
    have hc : n ≤ v.data_.Capacity := hn
    simp only [Reserve, hc, if_true]
  · intro hv hfit
    obtain ⟨xs, cap, rfl, hle⟩ := hv.exists_rep
    have hcap : (rep xs cap).Capacity = cap := rfl
    rw [hcap] at hfit
    refine ⟨_, Reserve_rep E xs cap n hle hfit,
      Inv_rep _ _ (le_trans hle (le_max_left _ _)), rfl, ?_, rfl, ?_, ?_⟩
    · rw [toList_rep, toList_rep]
    · intro hlt
      rw [hcap] at hlt
      show max cap n = n
      exact max_eq_right (by omega)
    · rw [Reserve_rep E xs (max cap n) n (le_trans hle (le_max_left _ _))
        (Or.inl (le_max_right _ _))]
      simp

/-- C9 on `[1, 2, 3]` in a block of 3 slots of `int`: `Reserve(2)` changes nothing and
`Reserve(8)` gives capacity 8 with the same elements. -/
theorem C9_Reserve_capacity_witness :
    Reserve intElem (rep [1, 2, 3] 3) 2 = some (rep [1, 2, 3] 3) ∧
    ∃ w, Reserve intElem (rep [1, 2, 3] 3) 8 = some w ∧ w.toList = [1, 2, 3] ∧
      w.Capacity = 8 := by
  refine ⟨(C9_Reserve_capacity intElem (rep [1, 2, 3] 3) 2).1 (by decide), ?_⟩
  obtain ⟨w, h1, _, _, h2, _, h3, _⟩ :=
    (C9_Reserve_capacity intElem (rep [1, 2, 3] 3) 8).2 (by decide) (Or.inr (by decide))
  exact ⟨w, h1, h2, h3 (by decide)⟩

/-- C10: for vectors `dst` and `rhs` that satisfy the data-model invariant and are distinct
objects, the copy assignment `dst = rhs` succeeds, the elements of `dst` afterwards are the
elements of `rhs` in the same order, the size of `dst` is the size of `rhs`, the capacity of
`dst` is the size of `rhs` when that exceeds the old capacity of `dst` and is unchanged
otherwise.  `rhs` is a reference to a constant that the assignment only reads.  The
self-assignment returns the vector as it is. -/
theorem C10_copy_assign_mirrors_rhs (dst rhs : Vector T) (hd : dst.Inv) (hr : rhs.Inv) :
    (∃ w, assign_copy false dst rhs = some w ∧ w.Inv ∧ w.toList = rhs.toList ∧
      w.size_ = rhs.size_ ∧
      (rhs.size_ > dst.Capacity → w.Capacity = rhs.size_) ∧
      (rhs.size_ ≤ dst.Capacity → w.Capacity = dst.Capacity)) ∧
    assign_copy true dst dst = some dst := by
  refine ⟨?_, by simp [assign_copy]⟩
  obtain ⟨xs, cap, rfl, hle⟩ := hd.exists_rep
  obtain ⟨ys, cap2, rfl, hle2⟩ := hr.exists_rep
  have hcap : (rep xs cap).Capacity = cap := rfl
  have hsz : (rep ys cap2).size_ = ys.length := rfl
  refine ⟨_, assign_copy_rep xs ys cap cap2 hle, Inv_rep _ _ ?_, ?_, rfl, ?_, ?_⟩
  · split <;> omega
  · rw [toList_rep, toList_rep]
  · intro hbig
    rw [hsz, hcap] at hbig
    show (if ys.length > cap then ys.length else cap) = ys.length
    rw [if_pos hbig]
  · intro hfit
    rw [hsz, hcap] at hfit
    show (if ys.length > cap then ys.length else cap) = cap
    rw [if_neg (by omega)]

/-- C10 on `dst = [1, 2, 3]` in 5 slots: assigning `[7]` (shrinking) and `[7, 8, 9, 10]`
(growing) reuse the 5 slots, and assigning 6 elements gives capacity 6. -/
theorem C10_copy_assign_mirrors_rhs_witness :
    (∃ w, assign_copy false (rep ([1, 2, 3] : List Int) 5) (rep [7] 1) = some w ∧ w.toList = [7] ∧
      w.Capacity = 5) ∧
    (∃ w, assign_copy false (rep ([1, 2, 3] : List Int) 5) (rep [7, 8, 9, 10] 4) = some w ∧
      w.toList = [7, 8, 9, 10] ∧ w.Capacity = 5) ∧
    (∃ w, assign_copy false (rep ([1, 2, 3] : List Int) 5) (rep [1, 2, 3, 4, 5, 6] 8) = some w ∧
      w.toList = [1, 2, 3, 4, 5, 6] ∧ w.Capacity = 6) := by
  obtain ⟨⟨w1, a1, _, b1, _, _, c1⟩, _⟩ :=
    C10_copy_assign_mirrors_rhs (rep [1, 2, 3] 5) (rep ([7] : List Int) 1)
      (by decide) (by decide)
  obtain ⟨⟨w2, a2, _, b2, _, _, c2⟩, _⟩ :=
    C10_copy_assign_mirrors_rhs (rep [1, 2, 3] 5) (rep ([7, 8, 9, 10] : List Int) 4)
      (by decide) (by decide)
  obtain ⟨⟨w3, a3, _, b3, _, c3, _⟩, _⟩ :=
    C10_copy_assign_mirrors_rhs (rep [1, 2, 3] 5) (rep ([1, 2, 3, 4, 5, 6] : List Int) 8)
      (by decide) (by decide)
  exact ⟨⟨w1, a1, b1, c1 (by decide)⟩, ⟨w2, a2, b2, c2 (by decide)⟩,
    ⟨w3, a3, b3, c3 (by decide)⟩⟩

/-- C11 fails on the code: the move assignment is a `Swap`, so after `b = std::move(a)` with
`b = [7]` (capacity 1) and `a = [1, 2]` (capacity 2) the source `a` has size 1 and capacity 1,
not size 0 and capacity 0. -/
theorem C11_move_assign_source_not_empty :
    ¬ ((assign_move (rep ([7] : List Int) 1) (rep [1, 2] 2)).2.Size = 0 ∧
       (assign_move (rep ([7] : List Int) 1) (rep [1, 2] 2)).2.Capacity = 0) := by
  decide

/-- C11 as amended: after the move assignment `b = std::move(a)` the vectors have exchanged
their contents: `a` has the elements, the size and the capacity that `b` had before and `b` has
those of `a`.  The source `a` ends with size 0 and capacity 0 when `b` was a default
constructed vector. -/
theorem C11_move_assign_swaps (a b : Vector T) :
    (assign_move b a).2.toList = b.toList ∧ (assign_move b a).2.Size = b.Size ∧
    (assign_move b a).2.Capacity = b.Capacity ∧
    (assign_move b a).1.toList = a.toList ∧ (assign_move b a).1.Size = a.Size ∧
    (assign_move b a).1.Capacity = a.Capacity ∧
    (assign_move ctor_default a).2.Size = 0 ∧ (assign_move ctor_default a).2.Capacity = 0 :=
  ⟨rfl, rfl, rfl, rfl, rfl, rfl, rfl, rfl⟩

/-- C12: for every vector `other`, the move constructor yields a vector with the elements, the
size, the capacity and the block that `other` had before the call and leaves `other` with
size 0, capacity 0 and no block. -/
theorem C12_move_construct_takes_storage (other : Vector T) :
    (ctor_move other).1 = other ∧
    (ctor_move other).1.toList = other.toList ∧ (ctor_move other).1.Size = other.Size ∧
    (ctor_move other).1.Capacity = other.Capacity ∧
    (ctor_move other).2.Size = 0 ∧ (ctor_move other).2.Capacity = 0 ∧
    (ctor_move other).2.data_.buffer_ = [] :=
  ⟨rfl, rfl, rfl, rfl, rfl, rfl, rfl⟩

/-- C13 fails on the code: the strings `["a", "b"]` fill a block of 2 slots, the type is
relocated by copy, `Insert(begin + 1, "x")` reallocates and the copy of `"b"` (slot 1, the
one element behind the position) throws.  The exception leaves the vector with size 2 and
capacity 2, but slot 0 holds no live object: the first `SafeOp` destroyed `"a"` after it had
copied it.  The new block is released without a live object. -/
theorem C13_Emplace_throw_loses_leading_elements :
    Insert_ex (fun i => i == 1) copyStrElem (rep ["a", "b"] 2) 1 (some "x")
      = Outcome.thrown { data_ := { buffer_ := [none, some "b"], capacity_ := 2 }, size_ := 2 }
          (some [none, none, none, none]) ∧
    ({ data_ := { buffer_ := [none, some "b"], capacity_ := 2 }, size_ := 2 } : Vector String)
      ≠ rep ["a", "b"] 2 := by
  refine ⟨rfl, ?_⟩
  simp [rep]

/-- C14 fails on the code: the string `["a"]` fills a block of 1 slot, the type is relocated
by copy, `PushBack("x")` and `EmplaceBack("x")` reallocate and the copy of `"a"` throws.  The
exception leaves the vector as it was, but the new block is released while its slot 1 still
holds the live new element `"x"`, whose destructor is never called. -/
theorem C14_PushBack_throw_leaks_new_element :
    PushBack_ex (fun i => i == 0) copyStrElem (rep ["a"] 1) (some "x")
      = Outcome.thrown (rep ["a"] 1) (some [none, some "x"]) ∧
    EmplaceBack_ex (fun i => i == 0) copyStrElem (rep ["a"] 1) (some "x")
      = Outcome.thrown (rep ["a"] 1) (some [none, some "x"]) ∧
    noLiveObject ([none, some "x"] : Block String) = false :=
  ⟨rfl, rfl, rfl⟩

end Vector

namespace Optional

variable {T : Type}

/-- C16 fails on the code: on a default-constructed (empty) `Optional<int>` the overloads
`Value() &` and `Value() const&` throw `BadOptionalAccess`, but the overload `Value() &&` has
no check: it dereferences `ptr_value_`, which is `nullptr`, and does not throw. -/
theorem C16_Value_rvalue_unchecked :
    Value (ctor_default : Optional Int) = Result.BadOptionalAccess ∧
    Value_const (ctor_default : Optional Int) = Result.BadOptionalAccess ∧
    Value_rvalue (ctor_default : Optional Int) = Result.undefined ∧
    Value_rvalue (ctor_default : Optional Int) ≠ Result.BadOptionalAccess := by
  decide

/-- C17: for every state of the optional, empty or occupied, and every value `x`: after
`Emplace(x)` `HasValue()` is true, `Value()` in each overload and the unchecked `operator*`
return `x`, and a following `Reset()` returns with `HasValue()` false.  A default-constructed
optional has `HasValue()` false, and after `Emplace(42)` it has `HasValue()` true and
`*s == 42`. -/
theorem C17_Emplace_then_Value (o : Optional T) (x : T) :
    (o.Emplace x).HasValue = true ∧
    (o.Emplace x).Value = Result.returned x ∧
    (o.Emplace x).Value_const = Result.returned x ∧
    (o.Emplace x).Value_rvalue = Result.returned x ∧
    (o.Emplace x).operator_star = Result.returned x ∧
    (∃ r, (o.Emplace x).Reset = Result.returned r ∧ r.HasValue = false ∧
      r.Value = Result.BadOptionalAccess) ∧
    (ctor_default : Optional Int).HasValue = false ∧
    ((ctor_default : Optional Int).Emplace 42).HasValue = true ∧
    ((ctor_default : Optional Int).Emplace 42).operator_star = Result.returned 42 :=
  ⟨rfl, rfl, rfl, rfl, rfl, ⟨_, rfl, rfl, rfl⟩, rfl, rfl, rfl⟩

/-- C19 fails on the code: `Emplace("b")` on an `Optional<std::string>` that holds `"a"`
constructs `"b"` over the live `"a"` without a destructor call.  Afterwards two objects are
constructed and not destroyed, and the destructor of the optional destroys only `"b"`: the
destructor of `"a"` never runs. -/
theorem C19_Emplace_overwrites_without_destroying :
    (((ctor_default : Optional String).Emplace "a").Emplace "b").undestroyed = ["b", "a"] ∧
    (((ctor_default : Optional String).Emplace "a").Emplace "b").overwritten = ["a"] ∧
    (((ctor_default : Optional String).Emplace "a").Emplace "b").dtor
      = Result.returned ["a"] ∧
    ((ctor_default : Optional String).Emplace "a").dtor = Result.returned [] :=
  ⟨rfl, rfl, rfl, rfl⟩

/-- C18: for every target `o` and every source `value` that satisfy the data-model invariant
and are distinct objects, the copy assignment and the move assignment return and leave the
same target.  Occupied target and occupied source: the source value is assigned into the
existing object.  Occupied target and empty source: the target is `Reset`.  Empty target and
occupied source: a new object is constructed from the source value.  Both empty: nothing
changes.  Hence the target has `HasValue()` equal to that of the source before the call and,
when occupied, the value of the source.  The copy assignment leaves the source unchanged; the
move assignment leaves it occupied or empty as before, its object moved from. -/
theorem C18_assign_from_Optional (E : ElemType T) (o value : Optional T)
    (ho : o.Inv) (hv : value.Inv) :
    ∃ r, assign_copy o value = Result.returned (r, value) ∧
      assign_move E o value = Result.returned (r, value.movedFrom E) ∧
      r.Inv ∧ r.HasValue = value.HasValue ∧ r.value? = value.value? ∧
      (value.movedFrom E).HasValue = value.HasValue ∧
      (o.HasValue = true → value.HasValue = true →
        ∃ x, value.value? = some x ∧ o.assign x = some r) ∧
      (o.HasValue = true → value.HasValue = false → o.Reset = Result.returned r) ∧
      (o.HasValue = false → value.HasValue = true →
        ∃ x, value.value? = some x ∧ r = o.Emplace x) ∧
      (o.HasValue = false → value.HasValue = false → r = o) := by
  cases hoi : o.is_initialized_ <;> cases hvi : value.is_initialized_
  · obtain ⟨p, rfl⟩ := Inv_empty ho hoi
    obtain ⟨q, rfl⟩ := Inv_empty hv hvi
    exact ⟨_, rfl, rfl, ho, rfl, rfl, rfl, by simp [HasValue], by simp [HasValue],
      by simp [HasValue], fun _ _ => rfl⟩
  · obtain ⟨p, rfl⟩ := Inv_empty ho hoi
    obtain ⟨x, rfl⟩ := Inv_occupied hv hvi
    refine ⟨_, rfl, rfl, ?_, rfl, rfl, rfl, by simp [HasValue], by simp [HasValue],
      fun _ _ => ⟨x, rfl, rfl⟩, by simp [HasValue]⟩
    simp [Inv, construct, setInitialized]
  · obtain ⟨y, rfl⟩ := Inv_occupied ho hoi
    obtain ⟨q, rfl⟩ := Inv_empty hv hvi
    refine ⟨_, rfl, rfl, ?_, rfl, rfl, rfl, by simp [HasValue], fun _ _ => rfl,
      by simp [HasValue], by simp [HasValue]⟩
    simp [Inv, setInitialized]
  · obtain ⟨y, rfl⟩ := Inv_occupied ho hoi
    obtain ⟨x, rfl⟩ := Inv_occupied hv hvi
    refine ⟨_, rfl, rfl, ?_, rfl, rfl, rfl, fun _ _ => ⟨x, rfl, rfl⟩, by simp [HasValue],
      by simp [HasValue], by simp [HasValue]⟩
    simp [Inv, setInitialized]

/-- C18 on `Optional<std::string>`: assigning an optional holding `"b"` to one holding `"a"`
and to an empty one gives `"b"`; assigning an empty optional to one holding `"a"` empties
it. -/
theorem C18_assign_from_Optional_witness :
    (∃ r, assign_copy (ctor_value "a") (ctor_value "b") = Result.returned (r, ctor_value "b") ∧
      r.value? = some "b") ∧
    (∃ r, assign_move strElem ctor_default (ctor_value "b")
        = Result.returned (r, (ctor_value "b").movedFrom strElem) ∧ r.value? = some "b") ∧
    (∃ r, assign_copy (ctor_value "a") (ctor_default : Optional String)
        = Result.returned (r, ctor_default) ∧ r.HasValue = false) := by
  obtain ⟨r1, a1, _, _, _, b1, _⟩ :=
    C18_assign_from_Optional strElem (ctor_value "a") (ctor_value "b") (by decide) (by decide)
  obtain ⟨r2, _, a2, _, _, b2, _⟩ :=
    C18_assign_from_Optional strElem ctor_default (ctor_value "b") (by decide) (by decide)
  obtain ⟨r3, a3, _, _, b3, _⟩ :=
    C18_assign_from_Optional strElem (ctor_value "a") ctor_default (by decide) (by decide)
  exact ⟨⟨r1, a1, b1⟩, ⟨r2, a2, b2⟩, ⟨r3, a3, b3⟩⟩

/-- C20: the constructors run their body on members that hold the default initialisers, so
the object under construction starts empty.  For every source `other` that satisfies the
data-model invariant the copy constructor and the move constructor return the same new
optional: its `HasValue()` equals that of the source and, when the source is occupied, it
holds the value of the source; it is the default-constructed optional for an empty source and
the optional constructed from `x` for a source holding `x`.  The copy constructor leaves the
source unchanged; the move constructor leaves it occupied or empty as before, its object
moved from. -/
theorem C20_construct_from_Optional (E : ElemType T) (other : Optional T) (hv : other.Inv) :
    (ctor_default : Optional T).HasValue = false ∧
    ∃ r, ctor_copy other = Result.returned (r, other) ∧
      ctor_move E other = Result.returned (r, other.movedFrom E) ∧
      r.Inv ∧ r.HasValue = other.HasValue ∧ r.value? = other.value? ∧
      (other.movedFrom E).HasValue = other.HasValue ∧
      (other.HasValue = false → r = ctor_default) ∧
      (∀ x, other.value? = some x → r = ctor_value x) := by
  refine ⟨rfl, ?_⟩
  cases hvi : other.is_initialized_
  · obtain ⟨q, rfl⟩ := Inv_empty hv hvi
    refine ⟨_, rfl, rfl, ?_, rfl, rfl, rfl, fun _ => rfl, by simp [value?, HasValue]⟩
    simp [Inv]
  · obtain ⟨x, rfl⟩ := Inv_occupied hv hvi
    refine ⟨_, rfl, rfl, ?_, rfl, rfl, rfl, by simp [HasValue], ?_⟩
    · simp [Inv, construct, setInitialized]
    · intro y hy
      have : x = y := by simpa [value?, HasValue] using hy
      subst this
      rfl

/-- C20 on `Optional<std::string>`: copying and moving an optional that holds `"b"` give an
optional that holds `"b"`; copying an empty optional gives an empty one. -/
theorem C20_construct_from_Optional_witness :
    (∃ r, ctor_copy (ctor_value "b") = Result.returned (r, ctor_value "b") ∧
      ctor_move strElem (ctor_value "b")
        = Result.returned (r, (ctor_value "b").movedFrom strElem) ∧
      r.value? = some "b") ∧
    (∃ r, ctor_copy (ctor_default : Optional String) = Result.returned (r, ctor_default) ∧
      r.HasValue = false) := by
  obtain ⟨_, r1, a1, a2, _, _, b1, _⟩ :=
    C20_construct_from_Optional strElem (ctor_value "b") (by decide)
  obtain ⟨_, r2, a3, _, _, b2, _⟩ :=
    C20_construct_from_Optional strElem (ctor_default : Optional String) (by decide)
  exact ⟨⟨r1, a1, a2, b1⟩, ⟨r2, a3, b2⟩⟩

end Optional

end AdvancedVector
